import Mathlib

/-!
Formal model of the flux-shuffle smart shuffle engine and its background
queue delivery service, translated from `src/utils/smartShuffle.ts` and
`src/services/queueBackgroundService.ts`.

Modelling conventions:
* JavaScript 32-bit integer arithmetic is modelled over `Nat` with explicit
  reduction modulo `2 ^ 32`.
* `AsyncStorage` is modelled as explicit state passing: the per-playlist
  shuffle-memory slot is an `Option ShuffleMemory` value and the single
  queue-delivery slot is an `Option QueueTaskState` value threaded through
  every operation.  Each write is recorded where a claim needs it.
* Fallible code returns `Except`; functions that the source documents as
  returning a success boolean return that boolean together with the new state.
* `Date.now()` is modelled by an explicit `now : Nat` argument.  The delivery
  loop's wall-clock based notification condition (`timeSinceUpdate >= 2000`)
  is modelled under a constant clock and therefore never fires; no claim
  depends on notification cadence.
-/

/-- A Spotify track as consumed by the shuffle engine: only the `id` and
`uri` fields are read by the code under study. -/
structure SpotifyTrack where
  id : String
  uri : String
  deriving DecidableEq, Repr

/-- One FNV-1a accumulation step on a 32-bit accumulator: XOR the byte in,
then multiply by the FNV prime 0x01000193, reduced modulo 2^32 as JavaScript
`Math.imul` does. -/
def fnv1aStep (h c : Nat) : Nat := ((h ^^^ c) * 0x01000193) % 4294967296

/-- Numeric value of the FNV-1a 32-bit hash of a string, following
`fnv1aHash` in `smartShuffle.ts`: start from the offset basis 0x811c9dc5 and
fold `fnv1aStep` over the character codes. -/
def fnv1aVal (s : String) : Nat :=
  s.data.foldl (fun h c => fnv1aStep h c.toNat) 0x811c9dc5

/-- Digit character used by JavaScript `Number.prototype.toString(36)`:
`0`-`9` then lowercase `a`-`z`. -/
def base36Digit (n : Nat) : Char :=
  if n < 10 then Char.ofNat (48 + n) else Char.ofNat (87 + n)

/-- Fuelled most-significant-first base-36 digit expansion. -/
def toBase36Core : Nat → Nat → List Char → List Char
  | 0, _, acc => acc
  | fuel + 1, n, acc =>
    if n = 0 then acc else toBase36Core fuel (n / 36) (base36Digit (n % 36) :: acc)

/-- Base-36 rendering of a natural number, as produced by JavaScript
`(hash >>> 0).toString(36)`. -/
def toBase36 (n : Nat) : String :=
  if n = 0 then "0" else ⟨toBase36Core (n + 1) n []⟩

/-- FNV-1a hash of a string rendered in base 36, following `fnv1aHash`. -/
def fnv1aHash (s : String) : String := toBase36 (fnv1aVal s)

/-- Decimal digit character. -/
def decDigit (n : Nat) : Char := Char.ofNat (48 + n)

/-- Fuelled most-significant-first decimal digit expansion. -/
def natToDecCore : Nat → Nat → List Char → List Char
  | 0, _, acc => acc
  | fuel + 1, n, acc =>
    if n = 0 then acc else natToDecCore fuel (n / 10) (decDigit (n % 10) :: acc)

/-- Decimal rendering of a natural number, as produced by JavaScript template
interpolation of a non-negative integer. -/
def natToDecimal (n : Nat) : String :=
  if n = 0 then "0" else ⟨natToDecCore (n + 1) n []⟩

/-- Playlist fingerprint, following `generatePlaylistHash`: the sentinel
`0_0` for an empty list, otherwise the track count and the FNV-1a hash of the
newline-joined track ids, separated by an underscore. -/
def generatePlaylistHash (tracks : List SpotifyTrack) : String :=
  if tracks.length = 0 then "0_0"
  else
    natToDecimal tracks.length ++ "_" ++
      fnv1aHash (String.intercalate "\n" (tracks.map (fun t => t.id)))

/-- Adaptive target batch size, following `calculateOptimalSetSize`. -/
def calculateOptimalSetSize (totalTracks : Nat) : Nat :=
  if totalTracks ≤ 150 then totalTracks
  else if totalTracks ≤ 500 then totalTracks / 2
  else if totalTracks ≤ 1500 then totalTracks / 3
  else min 400 (totalTracks / 4)

/-- Per-playlist shuffle memory record, following the `ShuffleMemory`
interface. -/
structure ShuffleMemory where
  playlistId : String
  playlistHash : String
  playedTrackIds : List String
  cycleNumber : Nat
  totalTracks : Nat
  lastUpdated : Nat
  deriving DecidableEq, Repr

/-- Shuffle statistics, following the `ShuffleStats` interface. -/
structure ShuffleStats where
  played : Nat
  remaining : Nat
  cycleComplete : Bool
  cycleNumber : Nat
  percentage : Nat
  deriving DecidableEq, Repr

/-- Result of one smart shuffle computation, following
`SmartShuffleResult`. -/
structure SmartShuffleResult where
  tracks : List SpotifyTrack
  stats : ShuffleStats
  deriving DecidableEq, Repr

/-- Fresh memory record, following `createFreshMemory`. -/
def createFreshMemory (playlistId : String) (tracks : List SpotifyTrack)
    (cycleNumber : Nat) (now : Nat) : ShuffleMemory :=
  { playlistId := playlistId
    playlistHash := generatePlaylistHash tracks
    playedTrackIds := []
    cycleNumber := cycleNumber
    totalTracks := tracks.length
    lastUpdated := now }

/-- JavaScript `Math.round((played / total) * 100)` on exact rationals:
round half up.  The source only evaluates it with `total > 0`. -/
def roundPct (played total : Nat) : Nat := (200 * played + total) / (2 * total)

/-- Modelled from the spec: `trueRandomShuffle` lives in
`src/utils/spotify.ts`, which is not included under `src/`.  Spec section 4.4
describes it as a Fisher-Yates shuffle over a copy of the input, drawing the
swap index for position `i` (descending) uniformly from `[0, i]`.  The draw
for position `i` is modelled as `r i % (i + 1)` for an arbitrary random
source `r`. -/
def fisherYatesCore (r : Nat → Nat) : Nat → List α → List α
  | 0, _ => []
  | _, [] => []
  | fuel + 1, x :: xs =>
    let n := (x :: xs).length - 1
    let j := r n % (x :: xs).length
    let lastElem := (x :: xs).getD n x
    let picked := (x :: xs).getD j x
    fisherYatesCore r fuel (((x :: xs).set j lastElem).dropLast) ++ [picked]

/-- Modelled from the spec (continued): the shuffle itself; the fuel equals
the input length, which the recursion consumes one element per step, so it
never runs out. -/
def fisherYates (r : Nat → Nat) (l : List α) : List α :=
  fisherYatesCore r l.length l

/-- Main smart shuffle computation, following `getSmartShuffledTracks`.
The `rand` argument feeds the shuffle primitive; `fuel` bounds the
cycle-rollover recursion (the source recursion is depth at most one on
non-empty input, so any fuel of at least 2 is enough); `store` is the
playlist's persisted memory slot, returned updated. -/
def getSmartShuffledTracks (rand : Nat → Nat) (fuel : Nat) (playlistId : String)
    (allTracks : List SpotifyTrack) (now : Nat) (store : Option ShuffleMemory) :
    Except String (SmartShuffleResult × Option ShuffleMemory) :=
  match fuel with
  | 0 => .error "fuel exhausted"
  | fuel + 1 =>
    if playlistId = "" then .error "[SmartShuffle] playlistId is required"
    else if allTracks.isEmpty then
      .ok (⟨[], ⟨0, 0, false, 0, 0⟩⟩, store)
    else
      let memory0 := store.getD (createFreshMemory playlistId allTracks 0 now)
      let currentHash := generatePlaylistHash allTracks
      let memory1 :=
        if memory0.playlistHash ≠ currentHash then
          createFreshMemory playlistId allTracks memory0.cycleNumber now
        else memory0
      let currentTrackIds := allTracks.map (fun t => t.id)
      let memory2 : ShuffleMemory :=
        { memory1 with
          playedTrackIds :=
            memory1.playedTrackIds.filter (fun tid => decide (tid ∈ currentTrackIds)) }
      let unplayedTracks :=
        allTracks.filter (fun t => decide (t.id ∉ memory2.playedTrackIds))
      if unplayedTracks.isEmpty then
        let memory3 := createFreshMemory playlistId allTracks (memory2.cycleNumber + 1) now
        match getSmartShuffledTracks rand fuel playlistId allTracks now (some memory3) with
        | .error e => .error e
        | .ok (result, store2) =>
          .ok (⟨result.tracks, { result.stats with cycleComplete := true }⟩, store2)
      else
        let setSize := calculateOptimalSetSize allTracks.length
        let tracksToReturn := min setSize unplayedTracks.length
        let shuffled := fisherYates rand unplayedTracks
        let selectedTracks := shuffled.take tracksToReturn
        let stats : ShuffleStats :=
          ⟨memory2.playedTrackIds.length,
            allTracks.length - memory2.playedTrackIds.length,
            false,
            memory2.cycleNumber,
            roundPct memory2.playedTrackIds.length allTracks.length⟩
        .ok (⟨selectedTracks, stats⟩, some memory2)

/-- Outcome of `markTracksAsPlayed` / `rollbackUnqueuedTracks`: the reported
boolean, the updated memory slot, and whether a persistence write
happened. -/
structure MarkResult where
  ok : Bool
  store : Option ShuffleMemory
  wrote : Bool
  deriving DecidableEq, Repr

/-- Commit operation, following `markTracksAsPlayed`: append the ids not
already present to the played list and persist; missing memory reports
failure. -/
def markTracksAsPlayed (store : Option ShuffleMemory) (trackIds : List String)
    (now : Nat) : MarkResult :=
  match store with
  | none => ⟨false, none, false⟩
  | some memory =>
    let newIds := trackIds.filter (fun tid => decide (tid ∉ memory.playedTrackIds))
    if newIds.isEmpty then ⟨true, some memory, false⟩
    else
      ⟨true,
        some { memory with
                playedTrackIds := memory.playedTrackIds ++ newIds
                lastUpdated := now },
        true⟩

/-- Rollback operation, following `rollbackUnqueuedTracks`: drop the given
ids from the played list, persisting only when something was removed. -/
def rollbackUnqueuedTracks (store : Option ShuffleMemory) (trackIds : List String)
    (now : Nat) : MarkResult :=
  match store with
  | none => ⟨false, none, false⟩
  | some memory =>
    let kept := memory.playedTrackIds.filter (fun tid => decide (tid ∉ trackIds))
    if kept.length < memory.playedTrackIds.length then
      ⟨true, some { memory with playedTrackIds := kept, lastUpdated := now }, true⟩
    else ⟨true, some memory, false⟩

/-- Error thrown by the external `addToQueue` capability, carrying an
optional HTTP status and a message, as inspected by
`queueTrackWithRetry`. -/
structure SpotifyError where
  status : Option Nat
  message : String
  deriving DecidableEq, Repr

/-- JavaScript `message.includes('429')`. -/
def msgHas429 (msg : String) : Bool := decide ("429".data <:+: msg.data)

/-- Per-track delivery with exponential backoff, following
`queueTrackWithRetry`.  The external `addToQueue` capability is an oracle
from (uri, device, attempt number) to an optional error.  The result pairs
the final outcome with the list of backoff delays slept, in order. -/
def queueTrackWithRetryCore (enqueue : String → String → Nat → Option SpotifyError)
    (trackUri deviceId : String) : Nat → Nat → Nat →
    Except SpotifyError Unit × List Nat
  | 0, _, _ => (.error ⟨none, "retry fuel exhausted"⟩, [])
  | fuel + 1, retryCount, maxRetries =>
    match enqueue trackUri deviceId retryCount with
    | none => (.ok (), [])
    | some err =>
      if (err.status = some 429 ∨ msgHas429 err.message) ∧ retryCount < maxRetries then
        let rest := queueTrackWithRetryCore enqueue trackUri deviceId fuel
          (retryCount + 1) maxRetries
        (rest.1, 2 ^ retryCount * 1000 :: rest.2)
      else (.error err, [])

/-- Per-track delivery entry point: the fuel `maxRetries + 1 - retryCount`
exactly covers the recursion depth (each retry raises `retryCount` by one and
stops at `maxRetries`), so the fuel-exhausted branch is unreachable from this
wrapper. -/
def queueTrackWithRetry (enqueue : String → String → Nat → Option SpotifyError)
    (trackUri deviceId : String) (retryCount maxRetries : Nat) :
    Except SpotifyError Unit × List Nat :=
  queueTrackWithRetryCore enqueue trackUri deviceId (maxRetries + 1 - retryCount)
    retryCount maxRetries

/-- Persisted delivery record, following the `QueueTaskState` interface. -/
structure QueueTaskState where
  playlistId : String
  playlistName : String
  tracks : List String
  firstTrackUri : String
  deviceId : String
  currentIndex : Nat
  totalTracks : Nat
  isActive : Bool
  startedAt : Nat
  statsRemaining : Option Nat
  deriving DecidableEq, Repr

/-- Notification events surfaced by the delivery service. -/
inductive QueueNote where
  | start (playlistName : String) (total : Nat)
  | progress (current total : Nat) (playlistName : String)
  | complete (total : Nat) (playlistName : String) (remaining : Option Nat)
  | error (message : String)
  | dismiss
  deriving DecidableEq, Repr

/-- Observable world state of the delivery service: the queue storage slot,
the playlist's shuffle-memory slot, the sequence of persisted
`currentIndex` values (one entry per `saveQueueState` call), and the
notifications emitted so far. -/
structure DeliveryWorld where
  queueStore : Option QueueTaskState
  shuffleStore : Option ShuffleMemory
  savedIndices : List Nat
  notes : List QueueNote
  deriving DecidableEq, Repr

/-- Persist the delivery record, following `saveQueueState`; the saved
`currentIndex` is logged. -/
def saveQueueState (state : QueueTaskState) (w : DeliveryWorld) : DeliveryWorld :=
  { w with
    queueStore := some state
    savedIndices := w.savedIndices ++ [state.currentIndex] }

/-- Delete the delivery record, following `clearQueueState`. -/
def clearQueueState (w : DeliveryWorld) : DeliveryWorld :=
  { w with queueStore := none }

/-- Track id from a Spotify URI, following `uri.split(':')` and taking the
last part: the characters after the last colon (the whole string when no
colon occurs), computed by a fold so that the kernel can evaluate it. -/
def uriTrackId (uri : String) : String :=
  ⟨uri.data.foldl (fun acc c => if c = ':' then [] else acc ++ [c]) []⟩

/-- Completion path, following `handleTaskComplete`: credit the first track
plus all queued tracks to shuffle memory, notify completion, clear the
record. -/
def handleTaskComplete (now : Nat) (state : QueueTaskState) (w : DeliveryWorld) :
    DeliveryWorld :=
  let queuedTrackIds := state.tracks.map uriTrackId
  let allTrackIds := uriTrackId state.firstTrackUri :: queuedTrackIds
  let mark := markTracksAsPlayed w.shuffleStore allTrackIds now
  clearQueueState
    { w with
      shuffleStore := mark.store
      notes := w.notes ++
        [QueueNote.complete state.totalTracks state.playlistName state.statsRemaining] }

/-- Failure path, following `handleTaskError`: roll back the not-yet-queued
suffix from shuffle memory, notify the error, clear the record. -/
def handleTaskError (now : Nat) (state : Option QueueTaskState)
    (errorMessage : String) (w : DeliveryWorld) : DeliveryWorld :=
  let w1 :=
    match state with
    | some s =>
      if s.currentIndex < s.tracks.length then
        let unqueuedTrackIds := (s.tracks.drop s.currentIndex).map uriTrackId
        let rb := rollbackUnqueuedTracks w.shuffleStore unqueuedTrackIds now
        { w with shuffleStore := rb.store }
      else w
    | none => w
  clearQueueState { w1 with notes := w1.notes ++ [QueueNote.error errorMessage] }

/-- Delivery loop of `processQueue`, from index `i`.  `health` is the
device-health oracle (queried every 25 tracks), `enqueue` the external
`addToQueue` capability.  Errors escaping `queueTrackWithRetry` whose
message contains `429` leave the loop running on the next track; any other
error aborts through `handleTaskError`. -/
def processQueueLoop (health : Nat → Bool)
    (enqueue : String → String → Nat → Option SpotifyError) (now : Nat) :
    Nat → Nat → Nat → QueueTaskState → DeliveryWorld → DeliveryWorld
  | 0, _, _, state, w => handleTaskComplete now state w
  | fuel + 1, i, lastUpdateIndex, state, w =>
    if i < state.tracks.length then
      let trackUri := state.tracks.getD i ""
      if 0 < i ∧ i % 25 = 0 ∧ health i = false then
        handleTaskError now (some state)
          "Device disconnected or unavailable during queueing" w
      else
        match (queueTrackWithRetry enqueue trackUri state.deviceId 0 3).1 with
        | .ok _ =>
          let state1 := { state with currentIndex := i + 1 }
          let w1 := saveQueueState state1 w
          let shouldUpdate := 3 ≤ i + 1 - lastUpdateIndex ∨ i + 1 = state.totalTracks
          let w2 :=
            if shouldUpdate then
              { w1 with
                notes := w1.notes ++
                  [QueueNote.progress (i + 1) state.totalTracks state.playlistName] }
            else w1
          let lu := if shouldUpdate then i + 1 else lastUpdateIndex
          processQueueLoop health enqueue now fuel (i + 1) lu state1 w2
        | .error err =>
          if msgHas429 err.message then
            processQueueLoop health enqueue now fuel (i + 1) lastUpdateIndex state w
          else handleTaskError now (some state) err.message w
    else handleTaskComplete now state w

/-- Queue processing entry point, following `processQueue`: loop from the
record's `currentIndex`.  The fuel `tracks.length - currentIndex` equals the
number of loop iterations left, so the fuel-zero branch coincides with normal
loop exit (both run `handleTaskComplete`). -/
def processQueue (health : Nat → Bool)
    (enqueue : String → String → Nat → Option SpotifyError) (now : Nat)
    (state : QueueTaskState) (w : DeliveryWorld) : DeliveryWorld :=
  processQueueLoop health enqueue now (state.tracks.length - state.currentIndex)
    state.currentIndex state.currentIndex state w

/-- Spotify track URI syntax check, following `isValidSpotifyTrackUri`:
the fixed scheme followed by exactly 22 alphanumeric characters. -/
def isAlphanumChar (c : Char) : Bool :=
  decide ((97 ≤ c.toNat ∧ c.toNat ≤ 122) ∨ (65 ≤ c.toNat ∧ c.toNat ≤ 90) ∨
    (48 ≤ c.toNat ∧ c.toNat ≤ 57))

/-- Validity of one Spotify track URI, following `isValidSpotifyTrackUri`:
the regex `spotify:track:` followed by exactly 22 alphanumerics, checked on
the character sequence. -/
def isValidSpotifyTrackUri (uri : String) : Bool :=
  decide (uri.data.take 14 = "spotify:track:".data) &&
  (uri.data.drop 14).length == 22 &&
  (uri.data.drop 14).all isAlphanumChar

/-- Batch URI validation, following `validateTrackUris`: the valid ones, the
invalid count, and the invalid ones. -/
def validateTrackUris (uris : List String) : List String × Nat × List String :=
  let validUris := uris.filter isValidSpotifyTrackUri
  let invalidUris := uris.filter (fun u => ! isValidSpotifyTrackUri u)
  (validUris, invalidUris.length, invalidUris)

/-- Arguments of `startBackgroundQueue`. -/
structure StartParams where
  playlistId : String
  playlistName : String
  tracks : List SpotifyTrack
  deviceId : String
  firstTrackUri : String
  statsRemaining : Option Nat
  deriving Repr

/-- Delivery start, following `startBackgroundQueue`: drop the first track
(already playing), validate the remaining URIs, abort with failure when more
than 10 percent are invalid (the catch block loads whatever record is stored
and runs `handleTaskError` on it), otherwise persist a fresh record with
`currentIndex = 0`, notify the start, and run the whole delivery, returning
success. -/
def startBackgroundQueue (health : Nat → Bool)
    (enqueue : String → String → Nat → Option SpotifyError) (now : Nat)
    (params : StartParams) (w : DeliveryWorld) : Bool × DeliveryWorld :=
  let trackUris := (params.tracks.drop 1).map (fun t => t.uri)
  let validation := validateTrackUris trackUris
  if 0 < validation.2.1 ∧ trackUris.length < validation.2.1 * 10 then
    (false, handleTaskError now w.queueStore "Too many invalid URIs" w)
  else
    let state : QueueTaskState :=
      { playlistId := params.playlistId
        playlistName := params.playlistName
        tracks := validation.1
        firstTrackUri := params.firstTrackUri
        deviceId := params.deviceId
        currentIndex := 0
        totalTracks := validation.1.length
        isActive := true
        startedAt := now
        statsRemaining := params.statsRemaining }
    let w1 := saveQueueState state w
    let w2 :=
      { w1 with
        notes := w1.notes ++ [QueueNote.start params.playlistName params.tracks.length] }
    (true, processQueue health enqueue now state w2)

/-- Cooperative stop, following `stopBackgroundQueue`: mark the stored
record inactive (when one exists) and dismiss the notification. -/
def stopBackgroundQueue (w : DeliveryWorld) : DeliveryWorld :=
  let w1 :=
    match w.queueStore with
    | some s => saveQueueState { s with isActive := false } w
    | none => w
  { w1 with notes := w1.notes ++ [QueueNote.dismiss] }

/-- Liveness check, following `isQueueActive`: report the stored record's
`isActive` flag, `false` when no record exists.  The source reads the slot
and returns; it performs no other action. -/
def isQueueActive (store : Option QueueTaskState) : Bool :=
  match store with
  | some s => s.isActive
  | none => false

/-- Memory record visible after steps 1 to 3 of `getSmartShuffledTracks`. -/
def reconciledMemory (playlistId : String) (allTracks : List SpotifyTrack)
    (now : Nat) (store : Option ShuffleMemory) : ShuffleMemory :=
  let memory0 := store.getD (createFreshMemory playlistId allTracks 0 now)
  let memory1 :=
    if memory0.playlistHash ≠ generatePlaylistHash allTracks then
      createFreshMemory playlistId allTracks memory0.cycleNumber now
    else memory0
  { memory1 with
    playedTrackIds :=
      memory1.playedTrackIds.filter
        (fun tid => decide (tid ∈ allTracks.map (fun t => t.id))) }

/-- Unplayed remainder computed in step 4 of `getSmartShuffledTracks`. -/
def unplayedAfterReconcile (playlistId : String) (allTracks : List SpotifyTrack)
    (now : Nat) (store : Option ShuffleMemory) : List SpotifyTrack :=
  allTracks.filter
    (fun t => decide (t.id ∉ (reconciledMemory playlistId allTracks now store).playedTrackIds))

/-- Decimal valuation of a digit string (most significant first). -/
def decVal (cs : List Char) : Nat := cs.foldl (fun a c => a * 10 + (c.toNat - 48)) 0

/-- Count prefix of a fingerprint: the decimal value of the characters
before the first underscore. -/
def hashCountPart (s : String) : Nat :=
  decVal (s.data.takeWhile (fun c => c != '_'))

/-- One simulated delivery round for the exactly-once property: compute the
next batch (recursion fuel 2 covers the one-level rollover) and commit the
returned tracks' ids, as the delivery pipeline does after full success. -/
def shuffleCommitStep (rand : Nat → Nat) (pid : String) (ts : List SpotifyTrack)
    (now : Nat) (store : Option ShuffleMemory) :
    Except String ((List String × ShuffleStats) × Option ShuffleMemory) :=
  match getSmartShuffledTracks rand 2 pid ts now store with
  | .error e => .error e
  | .ok (result, store1) =>
    .ok ((result.tracks.map (fun t => t.id), result.stats),
      (markTracksAsPlayed store1 (result.tracks.map (fun t => t.id)) now).store)

/-- Run `count` delivery rounds from call index `i` (round `j` draws from
the random source `rands j`), collecting each round's batch ids and
statistics. -/
def runShuffleCommit (rands : Nat → Nat → Nat) (pid : String)
    (ts : List SpotifyTrack) (now : Nat) :
    Nat → Nat → Option ShuffleMemory →
    Except String (List (List String × ShuffleStats) × Option ShuffleMemory)
  | _, 0, store => .ok ([], store)
  | i, count + 1, store =>
    (shuffleCommitStep (rands i) pid ts now store).bind (fun p =>
      (runShuffleCommit rands pid ts now (i + 1) count p.2).map (fun q =>
        (p.1 :: q.1, q.2)))

/-- Storage invariant maintained across the first cycle of delivery rounds:
either nothing is stored yet (and nothing was played), or the stored record
matches the live list's fingerprint, holds exactly the committed ids and is
still on cycle 0. -/
def CycleInvStore (ts : List SpotifyTrack) (played : List String)
    (store : Option ShuffleMemory) : Prop :=
  (store = none ∧ played = []) ∨
  (∃ mem, store = some mem ∧ mem.playlistHash = generatePlaylistHash ts ∧
    mem.playedTrackIds = played ∧ mem.cycleNumber = 0)

/-! Helper lemmas about list surgery, used to show the modelled Fisher-Yates
shuffle permutes its input. -/

/-- Setting an index inside the prefix commutes with appending a last
element. -/
theorem setAppendLeft (m : List α) (y c : α) :
    ∀ (j : Nat), j < m.length → (m ++ [y]).set j c = m.set j c ++ [y] := by
  induction m with
  | nil => intro j hj; simp at hj
  | cons x xs ih =>
    intro j hj
    cases j with
    | zero => simp
    | succ j =>
      simp only [List.cons_append, List.set_cons_succ]
      rw [ih j (by simpa using hj)]

/-- Setting the last position of a concatenation replaces the appended
element. -/
theorem setAppendLast (m : List α) (y c : α) :
    (m ++ [y]).set m.length c = m ++ [c] := by
  induction m with
  | nil => rfl
  | cons x xs ih => simpa using ih

/-- Reading inside the prefix of a concatenation. -/
theorem getDAppendLeft (m : List α) (y d : α) :
    ∀ (j : Nat), j < m.length → (m ++ [y]).getD j d = m.getD j d := by
  induction m with
  | nil => intro j hj; simp at hj
  | cons x xs ih =>
    intro j hj
    cases j with
    | zero => rfl
    | succ j => simpa using ih j (by simpa using hj)

/-- Reading the appended last element of a concatenation. -/
theorem getDAppendLast (m : List α) (y d : α) :
    (m ++ [y]).getD m.length d = y := by
  induction m with
  | nil => rfl
  | cons x xs ih => simpa using ih

/-- Replacing position `j` by `c` while moving the displaced element to the
end permutes the original list with `c` appended. -/
theorem permSetAppendGetD (m : List α) (c d : α) :
    ∀ (j : Nat), j < m.length → (m.set j c ++ [m.getD j d]).Perm (m ++ [c]) := by
  induction m with
  | nil => intro j hj; simp at hj
  | cons x xs ih =>
    intro j hj
    cases j with
    | zero =>
      simp only [List.set_cons_zero, List.getD_cons_zero, List.cons_append]
      exact ((List.perm_append_singleton x xs).cons c).trans
        ((List.Perm.swap x c xs).trans (((List.perm_append_singleton c xs).symm).cons x))
    | succ j =>
      simp only [List.set_cons_succ, List.getD_cons_succ, List.cons_append]
      exact (ih j (by simpa using hj)).cons x

/-- One Fisher-Yates step permutes: swapping position `j` with the last
position, dropping the last slot and re-appending the displaced element
yields a permutation of the original list. -/
theorem fisherYatesStepPerm (l : List α) (d : α) (hl : l ≠ []) :
    ∀ (j : Nat), j < l.length →
      (((l.set j (l.getD (l.length - 1) d)).dropLast) ++ [l.getD j d]).Perm l := by
  rcases l.eq_nil_or_concat with h | ⟨m, y, h⟩
  · exact absurd h hl
  · subst h
    rw [List.concat_eq_append]
    intro j hj
    have hlen : (m ++ [y]).length - 1 = m.length := by simp
    rw [hlen, getDAppendLast]
    rcases Nat.lt_or_ge j m.length with hjm | hjm
    · rw [setAppendLeft m y y j hjm, List.dropLast_concat, getDAppendLeft m y d j hjm]
      exact permSetAppendGetD m y d j hjm
    · have hje : j = m.length := by
        have : j < m.length + 1 := by simpa using hj
        omega
      subst hje
      rw [setAppendLast, List.dropLast_concat, getDAppendLast]

/-- The fuelled Fisher-Yates recursion permutes its input whenever the fuel
covers the input length. -/
theorem fisherYatesCore_perm (r : Nat → Nat) :
    ∀ (fuel : Nat) (l : List α), l.length ≤ fuel →
      (fisherYatesCore r fuel l).Perm l := by
  intro fuel
  induction fuel with
  | zero =>
    intro l hl
    have hnil : l = [] := List.eq_nil_of_length_eq_zero (Nat.le_zero.mp hl)
    subst hnil
    rfl
  | succ fuel ih =>
    intro l hl
    match l with
    | [] => rfl
    | x :: xs =>
      rw [fisherYatesCore]
      have hlen : (((x :: xs).set (r ((x :: xs).length - 1) % (x :: xs).length)
          ((x :: xs).getD ((x :: xs).length - 1) x)).dropLast).length ≤ fuel := by
        simp only [List.length_dropLast, List.length_set, List.length_cons]
        simp only [List.length_cons] at hl
        omega
      refine ((ih _ hlen).append_right _).trans ?_
      exact fisherYatesStepPerm (x :: xs) x (by simp)
        (r ((x :: xs).length - 1) % (x :: xs).length)
        (Nat.mod_lt _ (by simp))

/-- The modelled Fisher-Yates shuffle returns a permutation of its input,
for every random source. -/
theorem fisherYates_perm (r : Nat → Nat) (l : List α) :
    (fisherYates r l).Perm l :=
  fisherYatesCore_perm r l.length l (Nat.le_refl _)

/-- The modelled Fisher-Yates shuffle preserves length. -/
theorem fisherYates_length (r : Nat → Nat) (l : List α) :
    (fisherYates r l).length = l.length :=
  (fisherYates_perm r l).length_eq

/-! Characterization of `getSmartShuffledTracks`: the memory record after the
reconciliation steps (lazy creation, change detection, orphan pruning) and
the unplayed remainder, factored out of the definition for the proofs. -/

/-- Mid-cycle behaviour of `getSmartShuffledTracks`: with a valid playlist
id, a non-empty track list and a non-empty unplayed remainder, the call
succeeds, selects a batch of the first `min(target, unplayed)` tracks of the
shuffled remainder, reports pre-commit statistics and stores the reconciled
memory. -/
theorem getSmartShuffledTracks_mid (rand : Nat → Nat) (fuel : Nat)
    (pid : String) (ts : List SpotifyTrack) (now : Nat)
    (store : Option ShuffleMemory)
    (h1 : pid ≠ "") (h2 : ts ≠ [])
    (h3 : unplayedAfterReconcile pid ts now store ≠ []) :
    getSmartShuffledTracks rand (fuel + 1) pid ts now store =
      .ok
        (⟨(fisherYates rand (unplayedAfterReconcile pid ts now store)).take
            (min (calculateOptimalSetSize ts.length)
              (unplayedAfterReconcile pid ts now store).length),
          ⟨(reconciledMemory pid ts now store).playedTrackIds.length,
            ts.length - (reconciledMemory pid ts now store).playedTrackIds.length,
            false,
            (reconciledMemory pid ts now store).cycleNumber,
            roundPct (reconciledMemory pid ts now store).playedTrackIds.length
              ts.length⟩⟩,
        some (reconciledMemory pid ts now store)) := by
  rw [getSmartShuffledTracks]
  rw [if_neg h1, if_neg (by simpa [List.isEmpty_iff] using h2)]
  rw [if_neg (by simpa [List.isEmpty_iff, unplayedAfterReconcile, reconciledMemory] using h3)]
  simp only [unplayedAfterReconcile, reconciledMemory]

/-- Reconciling a freshly created memory record changes nothing. -/
theorem reconciledMemory_fresh (pid : String) (ts : List SpotifyTrack)
    (now c : Nat) :
    reconciledMemory pid ts now (some (createFreshMemory pid ts c now)) =
      createFreshMemory pid ts c now := by
  simp [reconciledMemory, createFreshMemory]

/-- Against a freshly created memory record every track is unplayed. -/
theorem unplayedAfterReconcile_fresh (pid : String) (ts : List SpotifyTrack)
    (now c : Nat) :
    unplayedAfterReconcile pid ts now (some (createFreshMemory pid ts c now)) = ts := by
  simp only [unplayedAfterReconcile, reconciledMemory_fresh]
  simp [createFreshMemory]

/-- A shuffle call on a freshly created memory record returns a batch drawn
from the whole list and zeroed statistics at the record's cycle number. -/
theorem getSmartShuffledTracks_fresh (rand : Nat → Nat) (fuel : Nat)
    (pid : String) (ts : List SpotifyTrack) (now c : Nat)
    (h1 : pid ≠ "") (h2 : ts ≠ []) :
    getSmartShuffledTracks rand (fuel + 1) pid ts now
        (some (createFreshMemory pid ts c now)) =
      .ok
        (⟨(fisherYates rand ts).take (min (calculateOptimalSetSize ts.length) ts.length),
          ⟨0, ts.length, false, c, roundPct 0 ts.length⟩⟩,
        some (createFreshMemory pid ts c now)) := by
  have h3 : unplayedAfterReconcile pid ts now
      (some (createFreshMemory pid ts c now)) ≠ [] := by
    rw [unplayedAfterReconcile_fresh]; exact h2
  rw [getSmartShuffledTracks_mid rand fuel pid ts now _ h1 h2 h3,
    unplayedAfterReconcile_fresh, reconciledMemory_fresh]
  simp [createFreshMemory]

/-- Rollover behaviour of `getSmartShuffledTracks`: when reconciliation
leaves no unplayed track, the call resets memory to a fresh record with the
cycle number incremented, recurses once, and reports the fresh batch with
`cycleComplete` forced to `true`. -/
theorem getSmartShuffledTracks_rollover (rand : Nat → Nat) (fuel : Nat)
    (pid : String) (ts : List SpotifyTrack) (now : Nat)
    (store : Option ShuffleMemory)
    (h1 : pid ≠ "") (h2 : ts ≠ [])
    (h3 : unplayedAfterReconcile pid ts now store = []) :
    getSmartShuffledTracks rand (fuel + 2) pid ts now store =
      .ok
        (⟨(fisherYates rand ts).take (min (calculateOptimalSetSize ts.length) ts.length),
          ⟨0, ts.length, true,
            (reconciledMemory pid ts now store).cycleNumber + 1,
            roundPct 0 ts.length⟩⟩,
        some (createFreshMemory pid ts
          ((reconciledMemory pid ts now store).cycleNumber + 1) now)) := by
  rw [getSmartShuffledTracks]
  rw [if_neg h1, if_neg (by simpa [List.isEmpty_iff] using h2)]
  rw [if_pos (by simpa [List.isEmpty_iff, unplayedAfterReconcile, reconciledMemory] using h3)]
  simp only []
  rw [getSmartShuffledTracks_fresh rand fuel pid ts now _ h1 h2]
  rfl

/-- C2 counterexample: the claimed boundary-table entry `total=1501 →
batch=500` fails on the code: `calculateOptimalSetSize 1501` follows the
`n > 1500` branch and returns `min 400 (1501 / 4) = 375`, not `⌊1501/3⌋ =
500`. -/
theorem calculateOptimalSetSize_1501_counterexample :
    calculateOptimalSetSize 1501 = 375 ∧ ¬ calculateOptimalSetSize 1501 = 500 := by
  constructor
  · rfl
  · intro h
    exact absurd h (by decide)

/-- C2 (amended): the target batch size is `n` for `n ≤ 150`, `⌊n/2⌋` for
`150 < n ≤ 500`, `⌊n/3⌋` for `500 < n ≤ 1500` and `min 400 ⌊n/4⌋` for
`n > 1500`; the boundary table holds with the entry for 1501 corrected to
375 (the code takes `min(400, ⌊1501/4⌋)`, not `⌊1501/3⌋`); and every
successful non-rollover shuffle call returns exactly
`min(target, unplayed.length)` tracks. -/
theorem calculateOptimalSetSize_spec :
    (∀ n : Nat,
      (n ≤ 150 → calculateOptimalSetSize n = n) ∧
      (150 < n → n ≤ 500 → calculateOptimalSetSize n = n / 2) ∧
      (500 < n → n ≤ 1500 → calculateOptimalSetSize n = n / 3) ∧
      (1500 < n → calculateOptimalSetSize n = min 400 (n / 4))) ∧
    (calculateOptimalSetSize 150 = 150 ∧ calculateOptimalSetSize 151 = 75 ∧
      calculateOptimalSetSize 500 = 250 ∧ calculateOptimalSetSize 1501 = 375 ∧
      calculateOptimalSetSize 2000 = 400) ∧
    (∀ (rand : Nat → Nat) (fuel : Nat) (pid : String) (ts : List SpotifyTrack)
        (now : Nat) (store : Option ShuffleMemory) (res : SmartShuffleResult)
        (store2 : Option ShuffleMemory),
      getSmartShuffledTracks rand (fuel + 1) pid ts now store = .ok (res, store2) →
      res.stats.cycleComplete = false →
      res.tracks.length =
        min (calculateOptimalSetSize ts.length)
          (unplayedAfterReconcile pid ts now store).length) := by
  refine ⟨?_, by decide, ?_⟩
  · intro n
    refine ⟨fun h => ?_, fun h h2 => ?_, fun h h2 => ?_, fun h => ?_⟩
    · rw [calculateOptimalSetSize, if_pos h]
    · rw [calculateOptimalSetSize, if_neg (by omega), if_pos h2]
    · rw [calculateOptimalSetSize, if_neg (by omega), if_neg (by omega), if_pos h2]
    · rw [calculateOptimalSetSize, if_neg (by omega), if_neg (by omega),
        if_neg (by omega)]
  · intro rand fuel pid ts now store res store2 hok hcc
    by_cases hpid : pid = ""
    · rw [getSmartShuffledTracks, if_pos hpid] at hok
      exact absurd hok (by simp)
    by_cases hts : ts = []
    · subst hts
      rw [getSmartShuffledTracks, if_neg hpid,
        if_pos (show ([] : List SpotifyTrack).isEmpty = true from rfl)] at hok
      simp only [Except.ok.injEq, Prod.mk.injEq] at hok
      obtain ⟨hres, -⟩ := hok
      subst hres
      simp [unplayedAfterReconcile]
    by_cases hunp : unplayedAfterReconcile pid ts now store = []
    · cases fuel with
      | zero =>
        rw [getSmartShuffledTracks, if_neg hpid,
          if_neg (by simpa [List.isEmpty_iff] using hts),
          if_pos (by simpa [List.isEmpty_iff, unplayedAfterReconcile,
            reconciledMemory] using hunp)] at hok
        simp only [] at hok
        rw [show ∀ st, getSmartShuffledTracks rand 0 pid ts now st =
          .error "fuel exhausted" from fun st => rfl] at hok
        exact absurd hok (by simp)
      | succ f =>
        rw [getSmartShuffledTracks_rollover rand f pid ts now store hpid hts hunp] at hok
        simp only [Except.ok.injEq, Prod.mk.injEq] at hok
        obtain ⟨hres, -⟩ := hok
        subst hres
        simp at hcc
    · rw [getSmartShuffledTracks_mid rand fuel pid ts now store hpid hts hunp] at hok
      simp only [Except.ok.injEq, Prod.mk.injEq] at hok
      obtain ⟨hres, -⟩ := hok
      subst hres
      simp only [List.length_take, fisherYates_length]
      omega

/-- C2 witness: the amended theorem applied at the boundary input 151 and at
a concrete three-track shuffle call from empty memory. -/
theorem calculateOptimalSetSize_spec_witness :
    calculateOptimalSetSize 151 = 151 / 2 ∧
    (SmartShuffleResult.mk
        [⟨"b", "ub"⟩, ⟨"c", "uc"⟩, ⟨"a", "ua"⟩]
        ⟨0, 3, false, 0, 0⟩).tracks.length =
      min (calculateOptimalSetSize 3)
        (unplayedAfterReconcile "p" [⟨"a", "ua"⟩, ⟨"b", "ub"⟩, ⟨"c", "uc"⟩] 0 none).length :=
  ⟨(calculateOptimalSetSize_spec.1 151).2.1 (by decide) (by decide),
    calculateOptimalSetSize_spec.2.2 (fun _ => 0) 0 "p"
      [⟨"a", "ua"⟩, ⟨"b", "ub"⟩, ⟨"c", "uc"⟩] 0 none
      (SmartShuffleResult.mk
        [⟨"b", "ub"⟩, ⟨"c", "uc"⟩, ⟨"a", "ua"⟩]
        ⟨0, 3, false, 0, 0⟩)
      (some ⟨"p", "3_1ncs92v", [], 0, 3, 0⟩)
      (by rfl) (by rfl)⟩

/-- C7 counterexample: a delivery record 2700001 ms old (past the claimed
45-minute = 2700000 ms staleness threshold) and still marked active is
reported as active by `isQueueActive`, not purged and reported inactive as
the claim states: the source reads the stored flag and does nothing else. -/
theorem isQueueActive_stale_counterexample :
    (QueueTaskState.mk "p" "n" [] "u" "dev" 0 0 true 0 none).isActive = true ∧
    2700001 - (QueueTaskState.mk "p" "n" [] "u" "dev" 0 0 true 0 none).startedAt >
      45 * 60 * 1000 ∧
    isQueueActive (some (QueueTaskState.mk "p" "n" [] "u" "dev" 0 0 true 0 none)) =
      true := by
  refine ⟨rfl, by decide, rfl⟩

/-- C7 (amended): `isQueueActive` performs no staleness reclamation: it
reports the stored record's `isActive` flag regardless of the record's age
(and, being a pure read in the source, deletes nothing and dismisses no
notification), so a record older than 45 minutes that is still marked active
is still reported active. -/
theorem isQueueActive_ignores_staleness (s : QueueTaskState) (now : Nat)
    (hactive : s.isActive = true)
    (hstale : now - s.startedAt > 45 * 60 * 1000) :
    isQueueActive (some s) = true := by
  simpa [isQueueActive] using hactive

/-- C7 witness: the amended theorem applied to a concrete stale record. -/
theorem isQueueActive_ignores_staleness_witness :
    isQueueActive (some (QueueTaskState.mk "p" "n" [] "u" "dev" 0 0 true 0 none)) =
      true :=
  isQueueActive_ignores_staleness (QueueTaskState.mk "p" "n" [] "u" "dev" 0 0 true 0 none)
    2700001 (by decide) (by decide)

/-- C9 counterexample: with an empty `playlistId` the source throws before
inspecting the track list, so the call with an empty track list does not
return the empty result but fails: the claim's `for every playlistId` is too
broad. -/
theorem getSmartShuffledTracks_empty_pid_counterexample :
    getSmartShuffledTracks (fun _ => 0) 1 "" [] 0 none =
      .error "[SmartShuffle] playlistId is required" := rfl

/-- C9 (amended): for every non-empty `playlistId`, a call with an empty
track list does not throw, returns no tracks with statistics
`{played 0, remaining 0, cycleComplete false, cycleNumber 0, percentage 0}`,
and leaves the storage slot untouched (no memory record is created or
modified). -/
theorem getSmartShuffledTracks_empty_tracks (rand : Nat → Nat) (fuel : Nat)
    (pid : String) (now : Nat) (store : Option ShuffleMemory) (h : pid ≠ "") :
    getSmartShuffledTracks rand (fuel + 1) pid [] now store =
      .ok (⟨[], ⟨0, 0, false, 0, 0⟩⟩, store) := by
  rw [getSmartShuffledTracks, if_neg h,
    if_pos (show ([] : List SpotifyTrack).isEmpty = true from rfl)]

/-- C9 witness: the amended theorem applied at a concrete playlist id and an
arbitrary pre-existing memory record, which the call leaves unchanged. -/
theorem getSmartShuffledTracks_empty_tracks_witness :
    getSmartShuffledTracks (fun _ => 0) 1 "p" [] 7
        (some (ShuffleMemory.mk "p" "h" ["a"] 2 1 0)) =
      .ok (⟨[], ⟨0, 0, false, 0, 0⟩⟩, some (ShuffleMemory.mk "p" "h" ["a"] 2 1 0)) :=
  getSmartShuffledTracks_empty_tracks (fun _ => 0) 0 "p" 7
    (some (ShuffleMemory.mk "p" "h" ["a"] 2 1 0)) (by decide)

/-- C3 counterexample: committing an id that is already in the played set
and then rolling the same id back does not restore the pre-commit played
set: the commit deduplicates (a no-op) but the rollback removes the
pre-existing entry, so the played set loses `a`. -/
theorem commit_rollback_counterexample :
    (rollbackUnqueuedTracks
        (markTracksAsPlayed (some (ShuffleMemory.mk "p" "h" ["a"] 0 1 0)) ["a"] 1).store
        ["a"] 2).store =
      some (ShuffleMemory.mk "p" "h" [] 0 1 2) ∧
    "a" ∈ (ShuffleMemory.mk "p" "h" ["a"] 0 1 0).playedTrackIds ∧
    "a" ∉ (ShuffleMemory.mk "p" "h" [] 0 1 2).playedTrackIds := by
  refine ⟨rfl, by decide, by decide⟩

/-- C3 (amended): for ids disjoint from the pre-commit played set (the
intended use: ids of freshly selected unplayed tracks),
`markTracksAsPlayed` followed by `rollbackUnqueuedTracks` on the same ids
restores the played list exactly and both calls report success; and
`rollbackUnqueuedTracks` on ids none of which are in the played set leaves
the memory unchanged, performs no write, and returns success. -/
theorem commit_rollback_symmetry (mem : ShuffleMemory) (ids : List String)
    (n1 n2 : Nat) (hdisj : ∀ tid ∈ ids, tid ∉ mem.playedTrackIds) :
    ((rollbackUnqueuedTracks (markTracksAsPlayed (some mem) ids n1).store ids n2).store.map
        (fun m => m.playedTrackIds)) = some mem.playedTrackIds ∧
    (markTracksAsPlayed (some mem) ids n1).ok = true ∧
    (rollbackUnqueuedTracks (markTracksAsPlayed (some mem) ids n1).store ids n2).ok =
      true ∧
    (∀ mem2 : ShuffleMemory, (∀ tid ∈ ids, tid ∉ mem2.playedTrackIds) →
      rollbackUnqueuedTracks (some mem2) ids n2 = ⟨true, some mem2, false⟩) := by
  have hnever : ∀ mem2 : ShuffleMemory, (∀ tid ∈ ids, tid ∉ mem2.playedTrackIds) →
      rollbackUnqueuedTracks (some mem2) ids n2 = ⟨true, some mem2, false⟩ := by
    intro mem2 h2
    rw [rollbackUnqueuedTracks]
    have hkeep : mem2.playedTrackIds.filter (fun tid => decide (tid ∉ ids)) =
        mem2.playedTrackIds := by
      apply List.filter_eq_self.mpr
      intro a ha
      simp only [decide_eq_true_eq]
      intro hin
      exact h2 a hin ha
    rw [hkeep]
    simp
  have hnew : ids.filter (fun tid => decide (tid ∉ mem.playedTrackIds)) = ids := by
    apply List.filter_eq_self.mpr
    intro a ha
    simp only [decide_eq_true_eq]
    exact hdisj a ha
  by_cases hids : ids = []
  · subst hids
    have hmark0 : markTracksAsPlayed (some mem) [] n1 = ⟨true, some mem, false⟩ := by
      rw [markTracksAsPlayed]
      simp
    rw [hmark0]
    refine ⟨?_, rfl, ?_, hnever⟩
    · show ((rollbackUnqueuedTracks (some mem) [] n2).store.map
        (fun m => m.playedTrackIds)) = some mem.playedTrackIds
      rw [hnever mem (by simp)]
      rfl
    · show (rollbackUnqueuedTracks (some mem) [] n2).ok = true
      rw [hnever mem (by simp)]
  · have hmark : markTracksAsPlayed (some mem) ids n1 =
        ⟨true, some { mem with playedTrackIds := mem.playedTrackIds ++ ids, lastUpdated := n1 }, true⟩ := by
      rw [markTracksAsPlayed, hnew]
      rw [if_neg (by simpa [List.isEmpty_iff] using hids)]
    have hkeep2 : (mem.playedTrackIds ++ ids).filter (fun tid => decide (tid ∉ ids)) =
        mem.playedTrackIds.filter (fun tid => decide (tid ∉ ids)) ++
          ids.filter (fun tid => decide (tid ∉ ids)) := by rw [List.filter_append]
    have hkeepl : mem.playedTrackIds.filter (fun tid => decide (tid ∉ ids)) =
        mem.playedTrackIds := by
      apply List.filter_eq_self.mpr
      intro a ha
      simp only [decide_eq_true_eq]
      intro hin
      exact hdisj a hin ha
    have hkeepr : ids.filter (fun tid => decide (tid ∉ ids)) = [] := by
      apply List.filter_eq_nil_iff.mpr
      intro a ha
      simp [ha]
    have hroll : rollbackUnqueuedTracks
        (some { mem with playedTrackIds := mem.playedTrackIds ++ ids, lastUpdated := n1 }) ids n2 =
        ⟨true, some { mem with playedTrackIds := mem.playedTrackIds, lastUpdated := n2 }, true⟩ := by
      rw [rollbackUnqueuedTracks]
      simp only [hkeep2, hkeepl, hkeepr, List.append_nil]
      rw [if_pos]
      simp only [List.length_append]
      have : ids.length ≠ 0 := by simpa [List.length_eq_zero] using hids
      omega
    rw [hmark]
    simp only [hroll]
    exact ⟨rfl, trivial, trivial, hnever⟩

/-- C3 witness: the amended theorem applied to a memory whose played list is
`[x]` and fresh ids `[a, b]`. -/
theorem commit_rollback_symmetry_witness :
    ((rollbackUnqueuedTracks
        (markTracksAsPlayed (some (ShuffleMemory.mk "p" "h" ["x"] 0 3 0)) ["a", "b"] 1).store
        ["a", "b"] 2).store.map (fun m => m.playedTrackIds)) = some ["x"] ∧
    (markTracksAsPlayed (some (ShuffleMemory.mk "p" "h" ["x"] 0 3 0)) ["a", "b"] 1).ok =
      true :=
  (fun h => ⟨h.1, h.2.1⟩)
    (commit_rollback_symmetry (ShuffleMemory.mk "p" "h" ["x"] 0 3 0) ["a", "b"] 1 2
      (by decide))

/-- C10 counterexample: `markTracksAsPlayed` deduplicates the incoming ids
only against the stored played list, not against each other, so a duplicated
input id is appended twice; and a pre-existing duplicate in the stored list
survives a commit untouched.  In both cases the played list holds duplicate
entries afterwards. -/
theorem markTracksAsPlayed_duplicates_counterexample :
    (markTracksAsPlayed (some (ShuffleMemory.mk "p" "h" [] 0 2 0)) ["b", "b"] 1).store =
      some (ShuffleMemory.mk "p" "h" ["b", "b"] 0 2 1) ∧
    ¬ (["b", "b"] : List String).Nodup ∧
    (markTracksAsPlayed (some (ShuffleMemory.mk "p" "h" ["a", "a"] 0 2 0)) [] 1).store =
      some (ShuffleMemory.mk "p" "h" ["a", "a"] 0 2 0) ∧
    ¬ (["a", "a"] : List String).Nodup := by
  refine ⟨rfl, by decide, rfl, by decide⟩

/-- C10 (amended): for every playlist with existing memory whose played list
has no duplicates and every duplicate-free list of track IDs, calling
`markTracksAsPlayed` twice with the same IDs leaves exactly the state of
calling it once, the played list contains no duplicate entries afterwards,
both calls return `true`, and the second call (in which every id is already
present) performs no persistence write. -/
theorem markTracksAsPlayed_idempotent (mem : ShuffleMemory) (ids : List String)
    (n1 n2 : Nat) (hmem : mem.playedTrackIds.Nodup) (hids : ids.Nodup) :
    (markTracksAsPlayed (some mem) ids n1).ok = true ∧
    markTracksAsPlayed (markTracksAsPlayed (some mem) ids n1).store ids n2 =
      ⟨true, (markTracksAsPlayed (some mem) ids n1).store, false⟩ ∧
    (∀ m, (markTracksAsPlayed (some mem) ids n1).store = some m →
      m.playedTrackIds.Nodup) := by
  by_cases hnew : ids.filter (fun tid => decide (tid ∉ mem.playedTrackIds)) = []
  · have hmark1 : markTracksAsPlayed (some mem) ids n1 = ⟨true, some mem, false⟩ := by
      rw [markTracksAsPlayed, hnew]
      simp
    have hmark2 : markTracksAsPlayed (some mem) ids n2 = ⟨true, some mem, false⟩ := by
      rw [markTracksAsPlayed, hnew]
      simp
    rw [hmark1]
    refine ⟨rfl, ?_, ?_⟩
    · show markTracksAsPlayed (some mem) ids n2 = ⟨true, some mem, false⟩
      exact hmark2
    · intro m hm
      cases hm
      exact hmem
  · have hmark1 : markTracksAsPlayed (some mem) ids n1 =
        ⟨true, some { mem with
          playedTrackIds := mem.playedTrackIds ++
            ids.filter (fun tid => decide (tid ∉ mem.playedTrackIds)),
          lastUpdated := n1 }, true⟩ := by
      rw [markTracksAsPlayed]
      rw [if_neg (by simpa [List.isEmpty_iff] using hnew)]
    have hsecond : ids.filter (fun tid => decide (tid ∉ mem.playedTrackIds ++
        ids.filter (fun t2 => decide (t2 ∉ mem.playedTrackIds)))) = [] := by
      apply List.filter_eq_nil_iff.mpr
      intro a ha
      simp only [decide_eq_true_eq, Decidable.not_not, List.mem_append,
        List.mem_filter]
      by_cases hin : a ∈ mem.playedTrackIds
      · exact Or.inl hin
      · exact Or.inr ⟨ha, by simpa using hin⟩
    have hmark2 : markTracksAsPlayed (some { mem with
        playedTrackIds := mem.playedTrackIds ++
          ids.filter (fun tid => decide (tid ∉ mem.playedTrackIds)),
        lastUpdated := n1 }) ids n2 =
        ⟨true, some { mem with
          playedTrackIds := mem.playedTrackIds ++
            ids.filter (fun tid => decide (tid ∉ mem.playedTrackIds)),
          lastUpdated := n1 }, false⟩ := by
      rw [markTracksAsPlayed]
      simp only [hsecond]
      simp
    rw [hmark1]
    refine ⟨rfl, by simpa using hmark2, ?_⟩
    · intro m hm
      simp only [Option.some.injEq] at hm
      subst hm
      simp only []
      refine List.Nodup.append hmem (hids.filter _) ?_
      intro a ha hafilter
      have := List.of_mem_filter hafilter
      simp only [decide_eq_true_eq] at this
      exact this ha

/-- C10 witness: the amended theorem applied to a concrete memory and id
list. -/
theorem markTracksAsPlayed_idempotent_witness :
    (markTracksAsPlayed (some (ShuffleMemory.mk "p" "h" ["a"] 0 3 0)) ["b", "c"] 1).ok =
      true ∧
    markTracksAsPlayed
        (markTracksAsPlayed (some (ShuffleMemory.mk "p" "h" ["a"] 0 3 0)) ["b", "c"] 1).store
        ["b", "c"] 2 =
      ⟨true,
        (markTracksAsPlayed (some (ShuffleMemory.mk "p" "h" ["a"] 0 3 0)) ["b", "c"] 1).store,
        false⟩ :=
  (fun h => ⟨h.1, h.2.1⟩)
    (markTracksAsPlayed_idempotent (ShuffleMemory.mk "p" "h" ["a"] 0 3 0) ["b", "c"] 1 2
      (by decide) (by decide))

/-! Decoding machinery for the fingerprint's decimal count prefix, used to
show that the fingerprint always detects size changes. -/

/-- Character value of a decimal digit. -/
theorem decDigit_toNat (m : Nat) (h : m < 10) : (decDigit m).toNat = 48 + m := by
  interval_cases m <;> rfl

/-- The decimal expansion only prepends digits to the accumulator. -/
theorem natToDecCore_append : ∀ (fuel n : Nat) (acc : List Char),
    natToDecCore fuel n acc = natToDecCore fuel n [] ++ acc := by
  intro fuel
  induction fuel with
  | zero => intro n acc; rfl
  | succ fuel ih =>
    intro n acc
    by_cases h0 : n = 0
    · subst h0; rfl
    · rw [natToDecCore, natToDecCore, if_neg h0, if_neg h0, ih (n / 10),
        ih (n / 10) [decDigit (n % 10)], List.append_assoc]
      rfl

/-- Valuation of the tail digit. -/
theorem decVal_append_digit (l : List Char) (c : Char) :
    decVal (l ++ [c]) = decVal l * 10 + (c.toNat - 48) := by
  simp [decVal, List.foldl_append]

/-- The decimal expansion round-trips through the valuation. -/
theorem decVal_natToDecCore : ∀ (fuel n : Nat), n ≤ fuel →
    decVal (natToDecCore fuel n []) = n := by
  intro fuel
  induction fuel with
  | zero =>
    intro n hn
    interval_cases n
    rfl
  | succ fuel ih =>
    intro n hn
    by_cases h0 : n = 0
    · subst h0; rfl
    · rw [natToDecCore, if_neg h0, natToDecCore_append, decVal_append_digit,
        ih (n / 10) (by omega), decDigit_toNat (n % 10) (Nat.mod_lt n (by omega))]
      omega

/-- The decimal rendering round-trips through the valuation. -/
theorem decVal_natToDecimal (n : Nat) : decVal (natToDecimal n).data = n := by
  by_cases h0 : n = 0
  · subst h0; rfl
  · rw [natToDecimal, if_neg h0]
    exact decVal_natToDecCore (n + 1) n (by omega)

/-- Every character of the decimal expansion is a digit (or came from the
accumulator). -/
theorem natToDecCore_mem : ∀ (fuel n : Nat) (acc : List Char) (c : Char),
    c ∈ natToDecCore fuel n acc → c ∈ acc ∨ ∃ m, m < 10 ∧ c = decDigit m := by
  intro fuel
  induction fuel with
  | zero => intro n acc c hc; exact Or.inl hc
  | succ fuel ih =>
    intro n acc c hc
    by_cases h0 : n = 0
    · subst h0; exact Or.inl hc
    · rw [natToDecCore, if_neg h0] at hc
      rcases ih (n / 10) (decDigit (n % 10) :: acc) c hc with hmem | hd
      · rcases List.mem_cons.mp hmem with he | ha
        · exact Or.inr ⟨n % 10, Nat.mod_lt n (by omega), he⟩
        · exact Or.inl ha
      · exact Or.inr hd

/-- No character of the decimal rendering is an underscore. -/
theorem natToDecimal_no_underscore (n : Nat) :
    ∀ c ∈ (natToDecimal n).data, c ≠ '_' := by
  intro c hc
  by_cases h0 : n = 0
  · subst h0
    rw [show natToDecimal 0 = "0" from rfl] at hc
    rw [show ("0" : String).data = ['0'] from rfl] at hc
    have hc0 : c = '0' := by simpa using hc
    subst hc0
    decide
  · rw [natToDecimal, if_neg h0] at hc
    rcases natToDecCore_mem (n + 1) n [] c hc with hmem | ⟨m, hm, he⟩
    · simp at hmem
    · subst he
      intro hu
      have := decDigit_toNat m hm
      rw [hu] at this
      simp only [show ('_').toNat = 95 from rfl] at this
      omega

/-- `takeWhile` up to the first underscore recovers an underscore-free
prefix. -/
theorem takeWhile_append_underscore : ∀ (l r : List Char),
    (∀ c ∈ l, c ≠ '_') →
    (l ++ '_' :: r).takeWhile (fun c => c != '_') = l := by
  intro l
  induction l with
  | nil =>
    intro r _
    simp [List.takeWhile]
  | cons x xs ih =>
    intro r hl
    have hx : (x != '_') = true := by
      simpa using hl x (List.mem_cons_self x xs)
    simp only [List.cons_append, List.takeWhile_cons, hx, if_true]
    rw [ih r (fun c hc => hl c (List.mem_cons_of_mem x hc))]

/-- The fingerprint's count prefix always decodes to the track count. -/
theorem hashCountPart_generatePlaylistHash (ts : List SpotifyTrack) :
    hashCountPart (generatePlaylistHash ts) = ts.length := by
  by_cases h : ts.length = 0
  · have : ts = [] := List.length_eq_zero.mp h
    subst this
    rfl
  · rw [generatePlaylistHash, if_neg h, hashCountPart]
    have hdata : (natToDecimal ts.length ++ "_" ++
        fnv1aHash (String.intercalate "\n" (ts.map (fun t => t.id)))).data =
        (natToDecimal ts.length).data ++ '_' ::
          (fnv1aHash (String.intercalate "\n" (ts.map (fun t => t.id)))).data := by
      simp [String.data_append]
    rw [hdata, takeWhile_append_underscore _ _ (natToDecimal_no_underscore ts.length)]
    exact decVal_natToDecimal ts.length

/-- C8 counterexample: swapping two distinct elements does not always change
the fingerprint.  The two distinct tracks with ids `z2nmd8` and `q3fgzf`
collide: the 32-bit FNV-1a hashes of `z2nmd8\nq3fgzf` and `q3fgzf\nz2nmd8`
are both 637707581, so both orders fingerprint to `2_ajoabh`. -/
theorem generatePlaylistHash_swap_counterexample :
    SpotifyTrack.mk "z2nmd8" "u1" ≠ SpotifyTrack.mk "q3fgzf" "u2" ∧
    [SpotifyTrack.mk "q3fgzf" "u2", SpotifyTrack.mk "z2nmd8" "u1"] =
      [([SpotifyTrack.mk "z2nmd8" "u1", SpotifyTrack.mk "q3fgzf" "u2"]).getD 1
          (SpotifyTrack.mk "" ""),
        ([SpotifyTrack.mk "z2nmd8" "u1", SpotifyTrack.mk "q3fgzf" "u2"]).getD 0
          (SpotifyTrack.mk "" "")] ∧
    generatePlaylistHash
        [SpotifyTrack.mk "z2nmd8" "u1", SpotifyTrack.mk "q3fgzf" "u2"] =
      generatePlaylistHash
        [SpotifyTrack.mk "q3fgzf" "u2", SpotifyTrack.mk "z2nmd8" "u1"] := by
  refine ⟨by decide, by decide, rfl⟩

/-- C8 (amended): appending an element always changes the fingerprint, as
does removing an element at any position (the decimal count prefix changes);
fingerprinting the same list twice yields equal output; and the empty list
maps to the sentinel `0_0`.  Swapping two distinct elements changes the
hashed id string but not always the fingerprint: 32-bit FNV-1a collisions
exist (see the counterexample). -/
theorem generatePlaylistHash_spec :
    (∀ (ts : List SpotifyTrack) (t : SpotifyTrack),
      generatePlaylistHash (ts ++ [t]) ≠ generatePlaylistHash ts) ∧
    (∀ (ts : List SpotifyTrack) (i : Nat), i < ts.length →
      generatePlaylistHash (ts.eraseIdx i) ≠ generatePlaylistHash ts) ∧
    (∀ ts : List SpotifyTrack, generatePlaylistHash ts = generatePlaylistHash ts) ∧
    generatePlaylistHash [] = "0_0" := by
  refine ⟨?_, ?_, fun ts => rfl, rfl⟩
  · intro ts t he
    have h1 := hashCountPart_generatePlaylistHash (ts ++ [t])
    have h2 := hashCountPart_generatePlaylistHash ts
    rw [he, h2] at h1
    simp at h1
  · intro ts i hi he
    have h1 := hashCountPart_generatePlaylistHash (ts.eraseIdx i)
    have h2 := hashCountPart_generatePlaylistHash ts
    rw [he, h2] at h1
    rw [List.length_eraseIdx_of_lt hi] at h1
    omega

/-- C8 witness: the amended theorem applied to a concrete two-track list:
appending a third track and erasing the head both change the fingerprint. -/
theorem generatePlaylistHash_spec_witness :
    generatePlaylistHash
        [SpotifyTrack.mk "a" "ua", SpotifyTrack.mk "b" "ub", SpotifyTrack.mk "c" "uc"] ≠
      generatePlaylistHash [SpotifyTrack.mk "a" "ua", SpotifyTrack.mk "b" "ub"] ∧
    generatePlaylistHash
        ([SpotifyTrack.mk "a" "ua", SpotifyTrack.mk "b" "ub"].eraseIdx 0) ≠
      generatePlaylistHash [SpotifyTrack.mk "a" "ua", SpotifyTrack.mk "b" "ub"] :=
  ⟨generatePlaylistHash_spec.1 [SpotifyTrack.mk "a" "ua", SpotifyTrack.mk "b" "ub"]
      (SpotifyTrack.mk "c" "uc"),
    generatePlaylistHash_spec.2.1 [SpotifyTrack.mk "a" "ua", SpotifyTrack.mk "b" "ub"]
      0 (by decide)⟩

/-! Behaviour of the per-track retry and of one delivery-loop iteration,
used for the rate-limit and cursor claims. -/

/-- Backoff delays of the fuelled retry: at most `mr - rc` of them, the
`k`-th slept delay doubling from `2 ^ rc * 1000`. -/
theorem queueTrackWithRetryCore_delays
    (enqueue : String → String → Nat → Option SpotifyError) (uri dev : String) :
    ∀ (fuel rc mr : Nat),
      (queueTrackWithRetryCore enqueue uri dev fuel rc mr).2.length ≤ mr - rc ∧
      (∀ k, k < (queueTrackWithRetryCore enqueue uri dev fuel rc mr).2.length →
        (queueTrackWithRetryCore enqueue uri dev fuel rc mr).2.getD k 0 =
          2 ^ (rc + k) * 1000) := by
  intro fuel
  induction fuel with
  | zero =>
    intro rc mr
    exact ⟨by simp [queueTrackWithRetryCore], by intro k hk; simp [queueTrackWithRetryCore] at hk⟩
  | succ fuel ih =>
    intro rc mr
    rw [queueTrackWithRetryCore]
    cases henq : enqueue uri dev rc with
    | none => exact ⟨by simp, by intro k hk; simp at hk⟩
    | some err =>
      dsimp only
      by_cases hc : (err.status = some 429 ∨ msgHas429 err.message) ∧ rc < mr
      · rw [if_pos hc]
        refine ⟨?_, ?_⟩
        · have := (ih (rc + 1) mr).1
          simp only [List.length_cons]
          omega
        · intro k hk
          cases k with
          | zero => simp
          | succ k =>
            simp only [List.getD_cons_succ]
            have hrec := (ih (rc + 1) mr).2 k (by
              simp only [List.length_cons] at hk
              omega)
            rw [hrec, show rc + 1 + k = rc + (k + 1) from by omega]
      · rw [if_neg hc]
        exact ⟨by simp, by intro k hk; simp at hk⟩

/-- When every attempt fails, the fuelled retry re-throws the error after
sleeping one backoff delay per remaining permitted retry. -/
theorem queueTrackWithRetryCore_exhaust
    (enqueue : String → String → Nat → Option SpotifyError) (uri dev : String)
    (err : SpotifyError)
    (henq : ∀ a, enqueue uri dev a = some err)
    (h429 : err.status = some 429 ∨ msgHas429 err.message) :
    ∀ (fuel rc mr : Nat), fuel = mr + 1 - rc → rc ≤ mr →
      (queueTrackWithRetryCore enqueue uri dev fuel rc mr).1 = .error err ∧
      (queueTrackWithRetryCore enqueue uri dev fuel rc mr).2.length = mr - rc := by
  intro fuel
  induction fuel with
  | zero => intro rc mr hfuel hrc; omega
  | succ fuel ih =>
    intro rc mr hfuel hrc
    rw [queueTrackWithRetryCore, henq rc]
    dsimp only
    by_cases hlt : rc < mr
    · rw [if_pos ⟨h429, hlt⟩]
      have hrec := ih (rc + 1) mr (by omega) (by omega)
      refine ⟨hrec.1, ?_⟩
      simp only [List.length_cons, hrec.2]
      omega
    · rw [if_neg (fun hx => hlt hx.2)]
      constructor
      · rfl
      · simp only [List.length_nil]
        omega

/-- A loop iteration whose track exhausts its retries on an error marked
`429` in the message is skipped: the loop continues with the next index,
with no state write, no notification and no abort. -/
theorem processQueueLoop_skip_429 (health : Nat → Bool)
    (enqueue : String → String → Nat → Option SpotifyError) (now : Nat)
    (fuel i lu : Nat) (state : QueueTaskState) (w : DeliveryWorld)
    (err : SpotifyError)
    (hi : i < state.tracks.length)
    (hguard : ¬(0 < i ∧ i % 25 = 0 ∧ health i = false))
    (herr : (queueTrackWithRetry enqueue (state.tracks.getD i "") state.deviceId 0 3).1 =
      .error err)
    (h429 : msgHas429 err.message = true) :
    processQueueLoop health enqueue now (fuel + 1) i lu state w =
      processQueueLoop health enqueue now fuel (i + 1) lu state w := by
  rw [processQueueLoop, if_pos hi, if_neg hguard, herr]
  simp only [h429, if_true]

/-- A loop iteration whose track fails with an error not marked `429` in the
message aborts the whole delivery through `handleTaskError`. -/
theorem processQueueLoop_abort (health : Nat → Bool)
    (enqueue : String → String → Nat → Option SpotifyError) (now : Nat)
    (fuel i lu : Nat) (state : QueueTaskState) (w : DeliveryWorld)
    (err : SpotifyError)
    (hi : i < state.tracks.length)
    (hguard : ¬(0 < i ∧ i % 25 = 0 ∧ health i = false))
    (herr : (queueTrackWithRetry enqueue (state.tracks.getD i "") state.deviceId 0 3).1 =
      .error err)
    (h429 : msgHas429 err.message = false) :
    processQueueLoop health enqueue now (fuel + 1) i lu state w =
      handleTaskError now (some state) err.message w := by
  rw [processQueueLoop, if_pos hi, if_neg hguard, herr]
  simp only [h429, Bool.false_eq_true, if_false]

/-- Observable effects of the failure path: the record is deleted, an error
notification is emitted, no progress checkpoint is written, and the
not-yet-queued suffix is rolled back from shuffle memory. -/
theorem handleTaskError_effects (now : Nat) (state : QueueTaskState)
    (msg : String) (w : DeliveryWorld) :
    (handleTaskError now (some state) msg w).queueStore = none ∧
    (handleTaskError now (some state) msg w).notes =
      w.notes ++ [QueueNote.error msg] ∧
    (handleTaskError now (some state) msg w).savedIndices = w.savedIndices ∧
    (handleTaskError now (some state) msg w).shuffleStore =
      (if state.currentIndex < state.tracks.length then
        (rollbackUnqueuedTracks w.shuffleStore
          ((state.tracks.drop state.currentIndex).map uriTrackId) now).store
      else w.shuffleStore) := by
  rw [handleTaskError]
  by_cases hidx : state.currentIndex < state.tracks.length
  · simp [hidx, clearQueueState]
  · simp [hidx, clearQueueState]

/-- C5 counterexample: a track whose every delivery attempt fails with a
rate-limit error carrying `429` in its message exhausts its three backoff
retries, yet the delivery is NOT aborted: on the two-track delivery
`[ta, tb]` where `ta` always rate-limits and `tb` succeeds, the loop skips
`ta`, delivers `tb`, emits no error notification, completes normally and
even commits the never-delivered `ta` (with the first track `tf`) to shuffle
memory. -/
theorem rateLimit_escalation_counterexample :
    (queueTrackWithRetry
        (fun uri _ _ => if uri = "ta"
          then some (SpotifyError.mk (some 429) "Rate limited (429)") else none)
        "ta" "dev" 0 3).2 = [1000, 2000, 4000] ∧
    (queueTrackWithRetry
        (fun uri _ _ => if uri = "ta"
          then some (SpotifyError.mk (some 429) "Rate limited (429)") else none)
        "ta" "dev" 0 3).1 = .error (SpotifyError.mk (some 429) "Rate limited (429)") ∧
    (processQueue (fun _ => true)
        (fun uri _ _ => if uri = "ta"
          then some (SpotifyError.mk (some 429) "Rate limited (429)") else none)
        5 (QueueTaskState.mk "p" "name" ["ta", "tb"] "tf" "dev" 0 2 true 0 none)
        (DeliveryWorld.mk
          (some (QueueTaskState.mk "p" "name" ["ta", "tb"] "tf" "dev" 0 2 true 0 none))
          (some (ShuffleMemory.mk "p" "h" [] 0 3 0)) [] [])).notes =
      [QueueNote.progress 2 2 "name", QueueNote.complete 2 "name" none] ∧
    (processQueue (fun _ => true)
        (fun uri _ _ => if uri = "ta"
          then some (SpotifyError.mk (some 429) "Rate limited (429)") else none)
        5 (QueueTaskState.mk "p" "name" ["ta", "tb"] "tf" "dev" 0 2 true 0 none)
        (DeliveryWorld.mk
          (some (QueueTaskState.mk "p" "name" ["ta", "tb"] "tf" "dev" 0 2 true 0 none))
          (some (ShuffleMemory.mk "p" "h" [] 0 3 0)) [] [])).shuffleStore =
      some (ShuffleMemory.mk "p" "h" ["tf", "ta", "tb"] 0 3 5) := by
  exact ⟨rfl, rfl, rfl, rfl⟩

/-- C5 (amended): per track, a rate-limit error is retried with exponential
backoff, the delay doubling from one second each attempt and capped at 3
retries; when every attempt rate-limits, the final error is re-thrown after
exactly 3 backoff sleeps.  The delivery loop then aborts — with rollback
attempt, error notification and state cleanup — only when the re-thrown
error's message does not contain `429`; when the message does contain `429`
the failed track is skipped and the loop continues with the next index.
Any error whose message lacks `429` (in particular any non-rate-limit error)
aborts the whole delivery immediately. -/
theorem rateLimit_escalation_spec :
    (∀ (enqueue : String → String → Nat → Option SpotifyError) (uri dev : String),
      (queueTrackWithRetry enqueue uri dev 0 3).2.length ≤ 3 ∧
      (∀ k, k < (queueTrackWithRetry enqueue uri dev 0 3).2.length →
        (queueTrackWithRetry enqueue uri dev 0 3).2.getD k 0 = 2 ^ k * 1000)) ∧
    (∀ (enqueue : String → String → Nat → Option SpotifyError) (uri dev : String)
        (err : SpotifyError),
      (∀ a, enqueue uri dev a = some err) →
      (err.status = some 429 ∨ msgHas429 err.message) →
      (queueTrackWithRetry enqueue uri dev 0 3).1 = .error err ∧
      (queueTrackWithRetry enqueue uri dev 0 3).2.length = 3) ∧
    (∀ (health : Nat → Bool) (enqueue : String → String → Nat → Option SpotifyError)
        (now fuel i lu : Nat) (state : QueueTaskState) (w : DeliveryWorld)
        (err : SpotifyError),
      i < state.tracks.length →
      ¬(0 < i ∧ i % 25 = 0 ∧ health i = false) →
      (queueTrackWithRetry enqueue (state.tracks.getD i "") state.deviceId 0 3).1 =
        .error err →
      msgHas429 err.message = true →
      processQueueLoop health enqueue now (fuel + 1) i lu state w =
        processQueueLoop health enqueue now fuel (i + 1) lu state w) ∧
    (∀ (health : Nat → Bool) (enqueue : String → String → Nat → Option SpotifyError)
        (now fuel i lu : Nat) (state : QueueTaskState) (w : DeliveryWorld)
        (err : SpotifyError),
      i < state.tracks.length →
      ¬(0 < i ∧ i % 25 = 0 ∧ health i = false) →
      (queueTrackWithRetry enqueue (state.tracks.getD i "") state.deviceId 0 3).1 =
        .error err →
      msgHas429 err.message = false →
      processQueueLoop health enqueue now (fuel + 1) i lu state w =
        handleTaskError now (some state) err.message w ∧
      (handleTaskError now (some state) err.message w).queueStore = none ∧
      (handleTaskError now (some state) err.message w).notes =
        w.notes ++ [QueueNote.error err.message]) := by
  refine ⟨?_, ?_, ?_, ?_⟩
  · intro enqueue uri dev
    have h := queueTrackWithRetryCore_delays enqueue uri dev (3 + 1 - 0) 0 3
    refine ⟨by simpa using h.1, ?_⟩
    intro k hk
    simpa using h.2 k (by simpa using hk)
  · intro enqueue uri dev err henq h429
    have h := queueTrackWithRetryCore_exhaust enqueue uri dev err henq h429
      (3 + 1 - 0) 0 3 rfl (by omega)
    exact ⟨h.1, by simpa using h.2⟩
  · intro health enqueue now fuel i lu state w err hi hguard herr h429
    exact processQueueLoop_skip_429 health enqueue now fuel i lu state w err
      hi hguard herr h429
  · intro health enqueue now fuel i lu state w err hi hguard herr h429
    refine ⟨processQueueLoop_abort health enqueue now fuel i lu state w err
      hi hguard herr h429, ?_, ?_⟩
    · exact (handleTaskError_effects now state err.message w).1
    · exact (handleTaskError_effects now state err.message w).2.1

/-- C5 witness: the amended theorem applied at an oracle that always
rate-limits: the retry re-throws the error after exactly three backoff
sleeps. -/
theorem rateLimit_escalation_spec_witness :
    (queueTrackWithRetry (fun _ _ _ => some (SpotifyError.mk (some 429) "limited"))
        "u" "d" 0 3).1 = .error (SpotifyError.mk (some 429) "limited") ∧
    (queueTrackWithRetry (fun _ _ _ => some (SpotifyError.mk (some 429) "limited"))
        "u" "d" 0 3).2.length = 3 :=
  rateLimit_escalation_spec.2.1 (fun _ _ _ => some (SpotifyError.mk (some 429) "limited"))
    "u" "d" (SpotifyError.mk (some 429) "limited") (fun _ => rfl) (Or.inl rfl)

/-- C6 at the failing input: on the delivery `[ta, tb]` where every attempt
for `ta` fails with a rate-limit error (message containing `429`) and `tb`
succeeds, the only persisted `currentIndex` value is 2 — skipping past index
0 whose track was never delivered — and the delivery completes, marking the
undelivered `ta` as played. -/
theorem processQueue_cursor_skips_failed_track :
    (queueTrackWithRetry
        (fun uri _ _ => if uri = "ta"
          then some (SpotifyError.mk (some 429) "Rate limited (429)") else none)
        "ta" "dev" 0 3).1 = .error (SpotifyError.mk (some 429) "Rate limited (429)") ∧
    (processQueue (fun _ => true)
        (fun uri _ _ => if uri = "ta"
          then some (SpotifyError.mk (some 429) "Rate limited (429)") else none)
        5 (QueueTaskState.mk "p" "name" ["ta", "tb"] "tf" "dev" 0 2 true 0 none)
        (DeliveryWorld.mk
          (some (QueueTaskState.mk "p" "name" ["ta", "tb"] "tf" "dev" 0 2 true 0 none))
          (some (ShuffleMemory.mk "p" "h" [] 0 3 0)) [] [])).savedIndices = [2] ∧
    (processQueue (fun _ => true)
        (fun uri _ _ => if uri = "ta"
          then some (SpotifyError.mk (some 429) "Rate limited (429)") else none)
        5 (QueueTaskState.mk "p" "name" ["ta", "tb"] "tf" "dev" 0 2 true 0 none)
        (DeliveryWorld.mk
          (some (QueueTaskState.mk "p" "name" ["ta", "tb"] "tf" "dev" 0 2 true 0 none))
          (some (ShuffleMemory.mk "p" "h" [] 0 3 0)) [] [])).queueStore = none ∧
    (processQueue (fun _ => true)
        (fun uri _ _ => if uri = "ta"
          then some (SpotifyError.mk (some 429) "Rate limited (429)") else none)
        5 (QueueTaskState.mk "p" "name" ["ta", "tb"] "tf" "dev" 0 2 true 0 none)
        (DeliveryWorld.mk
          (some (QueueTaskState.mk "p" "name" ["ta", "tb"] "tf" "dev" 0 2 true 0 none))
          (some (ShuffleMemory.mk "p" "h" [] 0 3 0)) [] [])).shuffleStore =
      some (ShuffleMemory.mk "p" "h" ["tf", "ta", "tb"] 0 3 5) := by
  exact ⟨rfl, rfl, rfl, rfl⟩

/-- C4 counterexample: with a delivery record already stored and
`isActive = true`, `startBackgroundQueue` does not return failure and does
not leave the state unchanged: it returns `true`, overwrites the record (the
persisted-index log gains entries 0 and 1) and runs the new delivery to
completion. -/
theorem startBackgroundQueue_active_counterexample :
    isQueueActive
        (some (QueueTaskState.mk "other" "o" ["tx"] "tf0" "dev" 0 1 true 0 none)) =
      true ∧
    (startBackgroundQueue (fun _ => true) (fun _ _ _ => none) 9
        (StartParams.mk "p" "name"
          [SpotifyTrack.mk "a" "spotify:track:aaaaaaaaaaaaaaaaaaaaaa",
            SpotifyTrack.mk "b" "spotify:track:bbbbbbbbbbbbbbbbbbbbbb"]
          "dev" "spotify:track:aaaaaaaaaaaaaaaaaaaaaa" none)
        (DeliveryWorld.mk
          (some (QueueTaskState.mk "other" "o" ["tx"] "tf0" "dev" 0 1 true 0 none))
          (some (ShuffleMemory.mk "p" "h" [] 0 2 0)) [] [])).1 = true ∧
    (startBackgroundQueue (fun _ => true) (fun _ _ _ => none) 9
        (StartParams.mk "p" "name"
          [SpotifyTrack.mk "a" "spotify:track:aaaaaaaaaaaaaaaaaaaaaa",
            SpotifyTrack.mk "b" "spotify:track:bbbbbbbbbbbbbbbbbbbbbb"]
          "dev" "spotify:track:aaaaaaaaaaaaaaaaaaaaaa" none)
        (DeliveryWorld.mk
          (some (QueueTaskState.mk "other" "o" ["tx"] "tf0" "dev" 0 1 true 0 none))
          (some (ShuffleMemory.mk "p" "h" [] 0 2 0)) [] [])).2.savedIndices =
      [0, 1] := by
  exact ⟨rfl, rfl, rfl⟩

/-- C4 (amended): `startBackgroundQueue` performs no single-slot check: its
boolean result and its entire effect are independent of whatever delivery
record is currently stored — in particular a stored record with
`isActive = true` is simply overwritten — and whenever the URI validation
passes (at most 10 percent invalid) the call returns `true`.  Mutual
exclusion, where enforced, is the callers' doing via `isQueueActive`. -/
theorem startBackgroundQueue_no_slot_check (health : Nat → Bool)
    (enqueue : String → String → Nat → Option SpotifyError) (now : Nat)
    (params : StartParams) (w : DeliveryWorld) (pre : Option QueueTaskState)
    (hvalid : ¬(0 < (validateTrackUris ((params.tracks.drop 1).map (fun t => t.uri))).2.1 ∧
      ((params.tracks.drop 1).map (fun t => t.uri)).length <
        (validateTrackUris ((params.tracks.drop 1).map (fun t => t.uri))).2.1 * 10)) :
    startBackgroundQueue health enqueue now params { w with queueStore := pre } =
      startBackgroundQueue health enqueue now params w ∧
    (startBackgroundQueue health enqueue now params w).1 = true := by
  constructor
  · simp only [startBackgroundQueue]
    rw [if_neg hvalid, if_neg hvalid]
    simp [saveQueueState]
  · simp only [startBackgroundQueue]
    rw [if_neg hvalid]

/-- C4 witness: the amended theorem applied to a concrete valid start over a
world holding an active record: same outcome as over the empty slot, and
success. -/
theorem startBackgroundQueue_no_slot_check_witness :
    startBackgroundQueue (fun _ => true) (fun _ _ _ => none) 9
        (StartParams.mk "p" "name"
          [SpotifyTrack.mk "a" "spotify:track:aaaaaaaaaaaaaaaaaaaaaa",
            SpotifyTrack.mk "b" "spotify:track:bbbbbbbbbbbbbbbbbbbbbb"]
          "dev" "spotify:track:aaaaaaaaaaaaaaaaaaaaaa" none)
        (DeliveryWorld.mk
          (some (QueueTaskState.mk "other" "o" ["tx"] "tf0" "dev" 0 1 true 0 none))
          (some (ShuffleMemory.mk "p" "h" [] 0 2 0)) [] []) =
      startBackgroundQueue (fun _ => true) (fun _ _ _ => none) 9
        (StartParams.mk "p" "name"
          [SpotifyTrack.mk "a" "spotify:track:aaaaaaaaaaaaaaaaaaaaaa",
            SpotifyTrack.mk "b" "spotify:track:bbbbbbbbbbbbbbbbbbbbbb"]
          "dev" "spotify:track:aaaaaaaaaaaaaaaaaaaaaa" none)
        (DeliveryWorld.mk none (some (ShuffleMemory.mk "p" "h" [] 0 2 0)) [] []) ∧
    (startBackgroundQueue (fun _ => true) (fun _ _ _ => none) 9
        (StartParams.mk "p" "name"
          [SpotifyTrack.mk "a" "spotify:track:aaaaaaaaaaaaaaaaaaaaaa",
            SpotifyTrack.mk "b" "spotify:track:bbbbbbbbbbbbbbbbbbbbbb"]
          "dev" "spotify:track:aaaaaaaaaaaaaaaaaaaaaa" none)
        (DeliveryWorld.mk none (some (ShuffleMemory.mk "p" "h" [] 0 2 0)) [] [])).1 =
      true :=
  startBackgroundQueue_no_slot_check (fun _ => true) (fun _ _ _ => none) 9
    (StartParams.mk "p" "name"
      [SpotifyTrack.mk "a" "spotify:track:aaaaaaaaaaaaaaaaaaaaaa",
        SpotifyTrack.mk "b" "spotify:track:bbbbbbbbbbbbbbbbbbbbbb"]
      "dev" "spotify:track:aaaaaaaaaaaaaaaaaaaaaa" none)
    (DeliveryWorld.mk none (some (ShuffleMemory.mk "p" "h" [] 0 2 0)) [] [])
    (some (QueueTaskState.mk "other" "o" ["tx"] "tf0" "dev" 0 1 true 0 none))
    (by decide)

/-- A shuffle call that finds no stored memory reconciles against the fresh
record it synthesizes. -/
theorem reconciledMemory_none (pid : String) (ts : List SpotifyTrack) (now : Nat) :
    reconciledMemory pid ts now none = createFreshMemory pid ts 0 now := by
  simp [reconciledMemory, createFreshMemory]

/-- With no stored memory every track is unplayed. -/
theorem unplayedAfterReconcile_none (pid : String) (ts : List SpotifyTrack)
    (now : Nat) : unplayedAfterReconcile pid ts now none = ts := by
  simp only [unplayedAfterReconcile, reconciledMemory_none]
  simp [createFreshMemory]

/-- Reconciliation leaves a record untouched when its fingerprint matches
the live list and its played ids all still exist. -/
theorem reconciledMemory_of_inv (pid : String) (ts : List SpotifyTrack)
    (now : Nat) (mem : ShuffleMemory)
    (hhash : mem.playlistHash = generatePlaylistHash ts)
    (hsub : ∀ x ∈ mem.playedTrackIds, x ∈ ts.map (fun t => t.id)) :
    reconciledMemory pid ts now (some mem) = mem := by
  rw [reconciledMemory]
  simp only [Option.getD_some]
  rw [if_neg (by simp [hhash])]
  rw [List.filter_eq_self.mpr (fun a ha => by simpa using hsub a ha)]

/-- Under the same conditions the unplayed remainder is the plain filter
against the stored played list. -/
theorem unplayedAfterReconcile_of_inv (pid : String) (ts : List SpotifyTrack)
    (now : Nat) (mem : ShuffleMemory)
    (hhash : mem.playlistHash = generatePlaylistHash ts)
    (hsub : ∀ x ∈ mem.playedTrackIds, x ∈ ts.map (fun t => t.id)) :
    unplayedAfterReconcile pid ts now (some mem) =
      ts.filter (fun t => decide (t.id ∉ mem.playedTrackIds)) := by
  rw [unplayedAfterReconcile, reconciledMemory_of_inv pid ts now mem hhash hsub]

/-- The target batch size is positive on every non-empty playlist. -/
theorem calculateOptimalSetSize_pos (n : Nat) (h : 1 ≤ n) :
    1 ≤ calculateOptimalSetSize n := by
  rw [calculateOptimalSetSize]
  split_ifs <;> omega

/-- Ids of a selected batch: duplicate-free, drawn from the unplayed pool,
of size `min kk pool`. -/
theorem selected_ids_facts (rand : Nat → Nat) (unp : List SpotifyTrack) (kk : Nat)
    (hnodup : (unp.map (fun t => t.id)).Nodup) :
    (((fisherYates rand unp).take kk).map (fun t => t.id)).Nodup ∧
    (∀ x ∈ ((fisherYates rand unp).take kk).map (fun t => t.id),
      x ∈ unp.map (fun t => t.id)) ∧
    (((fisherYates rand unp).take kk).map (fun t => t.id)).length = min kk unp.length := by
  have hperm : ((fisherYates rand unp).map (fun t => t.id)).Perm
      (unp.map (fun t => t.id)) := (fisherYates_perm rand unp).map _
  have hsub : (((fisherYates rand unp).take kk).map (fun t => t.id)).Sublist
      ((fisherYates rand unp).map (fun t => t.id)) :=
    (List.take_sublist kk (fisherYates rand unp)).map _
  refine ⟨hsub.nodup (hperm.nodup_iff.mpr hnodup), ?_, ?_⟩
  · intro x hx
    exact hperm.mem_iff.mp (hsub.mem hx)
  · rw [List.length_map, List.length_take, fisherYates_length]

/-- Tracks whose id lies in a duplicate-free pool of present ids are exactly
as many as the pool's ids. -/
theorem filter_mem_ids_length (A : List SpotifyTrack) (b : List String)
    (hA : (A.map (fun t => t.id)).Nodup) (hb : b.Nodup)
    (hsub : ∀ x ∈ b, x ∈ A.map (fun t => t.id)) :
    ((A.filter (fun t => decide (t.id ∈ b))).map (fun t => t.id)).Perm b := by
  have hsubl : ((A.filter (fun t => decide (t.id ∈ b))).map (fun t => t.id)).Sublist
      (A.map (fun t => t.id)) := (List.filter_sublist A).map _
  rw [List.perm_ext_iff_of_nodup (hsubl.nodup hA) hb]
  intro x
  constructor
  · intro hx
    rcases List.mem_map.mp hx with ⟨t, ht, he⟩
    have := List.of_mem_filter ht
    simpa [he] using this
  · intro hx
    rcases List.mem_map.mp (hsub x hx) with ⟨t, ht, he⟩
    exact List.mem_map.mpr ⟨t, List.mem_filter.mpr ⟨ht, by simpa [he] using hx⟩, he⟩

/-- Committing a duplicate-free batch of present, unplayed ids shrinks the
unplayed count by exactly the batch size. -/
theorem unplayed_length_after_commit (ts : List SpotifyTrack)
    (played b : List String) (hnodup : (ts.map (fun t => t.id)).Nodup)
    (hb : b.Nodup)
    (hbsub : ∀ x ∈ b, x ∈ ts.map (fun t => t.id) ∧ x ∉ played) :
    (ts.filter (fun t => decide (t.id ∉ played ++ b))).length + b.length =
      (ts.filter (fun t => decide (t.id ∉ played))).length := by
  have hsplit : ts.filter (fun t => decide (t.id ∉ played ++ b)) =
      (ts.filter (fun t => decide (t.id ∉ played))).filter
        (fun t => decide (t.id ∉ b)) := by
    rw [List.filter_filter]
    apply List.filter_congr
    intro t _
    rw [show (decide (t.id ∉ b) && decide (t.id ∉ played)) =
      decide (t.id ∉ b ∧ t.id ∉ played) from (Bool.decide_and _ _).symm]
    apply decide_eq_decide.mpr
    simp [List.mem_append]
    tauto
  have hA : ((ts.filter (fun t => decide (t.id ∉ played))).map (fun t => t.id)).Nodup :=
    ((List.filter_sublist ts).map _).nodup hnodup
  have hlenb : ((ts.filter (fun t => decide (t.id ∉ played))).filter
      (fun t => decide (t.id ∈ b))).length = b.length := by
    have hp := filter_mem_ids_length (ts.filter (fun t => decide (t.id ∉ played))) b
      hA hb ?_
    · have := hp.length_eq
      simpa using this
    · intro x hx
      rcases List.mem_map.mp (hbsub x hx).1 with ⟨t, ht, he⟩
      exact List.mem_map.mpr
        ⟨t, List.mem_filter.mpr ⟨ht, by simp [he, (hbsub x hx).2]⟩, he⟩
  rw [hsplit]
  have hcount := List.length_eq_length_filter_add
    (l := ts.filter (fun t => decide (t.id ∉ played)))
    (fun t => decide (t.id ∈ b))
  have hneg : (ts.filter (fun t => decide (t.id ∉ played))).filter
      (fun t => ! decide (t.id ∈ b)) =
      (ts.filter (fun t => decide (t.id ∉ played))).filter
        (fun t => decide (t.id ∉ b)) := by
    apply List.filter_congr
    intro t _
    simp
  rw [hneg] at hcount
  omega

/-- Fields of the reconciled memory under the cycle invariant. -/
theorem reconciledMemory_inv_facts (pid : String) (ts : List SpotifyTrack)
    (now : Nat) (played : List String) (store : Option ShuffleMemory)
    (hinv : CycleInvStore ts played store)
    (hsub : ∀ x ∈ played, x ∈ ts.map (fun t => t.id)) :
    (reconciledMemory pid ts now store).playedTrackIds = played ∧
    (reconciledMemory pid ts now store).playlistHash = generatePlaylistHash ts ∧
    (reconciledMemory pid ts now store).cycleNumber = 0 := by
  rcases hinv with ⟨hst, hpl⟩ | ⟨mem, hst, hhash, hpl, hcyc⟩
  · subst hst
    subst hpl
    rw [reconciledMemory_none]
    exact ⟨rfl, rfl, rfl⟩
  · subst hst
    rw [reconciledMemory_of_inv pid ts now mem hhash (by rw [hpl]; exact hsub)]
    exact ⟨hpl, hhash, hcyc⟩

/-- Unfolding of one shuffle-and-commit round on a successful shuffle. -/
theorem shuffleCommitStep_ok (rand : Nat → Nat) (pid : String)
    (ts : List SpotifyTrack) (now : Nat) (store : Option ShuffleMemory)
    (tracksv : List SpotifyTrack) (statsv : ShuffleStats)
    (store1 : Option ShuffleMemory)
    (h : getSmartShuffledTracks rand 2 pid ts now store = .ok (⟨tracksv, statsv⟩, store1)) :
    shuffleCommitStep rand pid ts now store =
      .ok ((tracksv.map (fun t => t.id), statsv),
        (markTracksAsPlayed store1 (tracksv.map (fun t => t.id)) now).store) := by
  rw [shuffleCommitStep, h]

/-- A mid-cycle shuffle-and-commit round under the cycle invariant: the
batch is non-empty, duplicate-free, drawn from the unplayed ids, reported
with pre-commit statistics on cycle 0, and appended to the stored played
list. -/
theorem shuffleCommitStep_mid (rand : Nat → Nat) (pid : String)
    (ts : List SpotifyTrack) (now : Nat) (played : List String)
    (store : Option ShuffleMemory)
    (hinv : CycleInvStore ts played store)
    (hpid : pid ≠ "") (hts : ts ≠ [])
    (hids : (ts.map (fun t => t.id)).Nodup)
    (hsub : ∀ x ∈ played, x ∈ ts.map (fun t => t.id))
    (hrem : ts.filter (fun t => decide (t.id ∉ played)) ≠ []) :
    ∃ b mem2,
      shuffleCommitStep rand pid ts now store =
        .ok ((b, ⟨played.length, ts.length - played.length, false, 0,
          roundPct played.length ts.length⟩), some mem2) ∧
      b.Nodup ∧ b ≠ [] ∧
      (∀ x ∈ b, x ∈ ts.map (fun t => t.id) ∧ x ∉ played) ∧
      mem2.playedTrackIds = played ++ b ∧
      mem2.playlistHash = generatePlaylistHash ts ∧
      mem2.cycleNumber = 0 := by
  obtain ⟨hR1, hR2, hR3⟩ := reconciledMemory_inv_facts pid ts now played store hinv hsub
  have hunp : unplayedAfterReconcile pid ts now store =
      ts.filter (fun t => decide (t.id ∉ played)) := by
    rw [unplayedAfterReconcile, hR1]
  have hmid := getSmartShuffledTracks_mid rand 1 pid ts now store hpid hts
    (by rw [hunp]; exact hrem)
  have hFids : ((ts.filter (fun t => decide (t.id ∉ played))).map
      (fun t => t.id)).Nodup := ((List.filter_sublist ts).map _).nodup hids
  obtain ⟨hbnd, hbmem, hblen⟩ := selected_ids_facts rand
    (ts.filter (fun t => decide (t.id ∉ played)))
    (min (calculateOptimalSetSize ts.length)
      (ts.filter (fun t => decide (t.id ∉ played))).length) hFids
  have hFpos : 1 ≤ (ts.filter (fun t => decide (t.id ∉ played))).length :=
    List.length_pos.mpr hrem
  have hset : 1 ≤ calculateOptimalSetSize ts.length :=
    calculateOptimalSetSize_pos ts.length
      (by simpa [Nat.succ_le_iff, List.length_pos] using hts)
  have hbpos : 1 ≤ (((fisherYates rand
      (ts.filter (fun t => decide (t.id ∉ played)))).take
        (min (calculateOptimalSetSize ts.length)
          (ts.filter (fun t => decide (t.id ∉ played))).length)).map
            (fun t => t.id)).length := by
    rw [hblen]
    omega
  have hbfacts : ∀ x ∈ ((fisherYates rand
      (ts.filter (fun t => decide (t.id ∉ played)))).take
        (min (calculateOptimalSetSize ts.length)
          (ts.filter (fun t => decide (t.id ∉ played))).length)).map
            (fun t => t.id),
      x ∈ ts.map (fun t => t.id) ∧ x ∉ played := by
    intro x hx
    rcases List.mem_map.mp (hbmem x hx) with ⟨t, ht, he⟩
    have h1 := List.mem_of_mem_filter ht
    have h2 := List.of_mem_filter ht
    simp only [decide_eq_true_eq] at h2
    exact ⟨List.mem_map.mpr ⟨t, h1, he⟩, by rw [← he]; exact h2⟩
  have hbne : ((fisherYates rand
      (ts.filter (fun t => decide (t.id ∉ played)))).take
        (min (calculateOptimalSetSize ts.length)
          (ts.filter (fun t => decide (t.id ∉ played))).length)).map
            (fun t => t.id) ≠ [] := by
    intro h
    rw [h] at hbpos
    simp at hbpos
  have hstep := shuffleCommitStep_ok rand pid ts now store _ _ _ hmid
  rw [hunp, hR1, hR3] at hstep
  have hmark : markTracksAsPlayed (some (reconciledMemory pid ts now store))
      (((fisherYates rand (ts.filter (fun t => decide (t.id ∉ played)))).take
        (min (calculateOptimalSetSize ts.length)
          (ts.filter (fun t => decide (t.id ∉ played))).length)).map (fun t => t.id))
      now =
      ⟨true, some { reconciledMemory pid ts now store with
        playedTrackIds := played ++
          ((fisherYates rand (ts.filter (fun t => decide (t.id ∉ played)))).take
            (min (calculateOptimalSetSize ts.length)
              (ts.filter (fun t => decide (t.id ∉ played))).length)).map (fun t => t.id)
        lastUpdated := now }, true⟩ := by
    rw [markTracksAsPlayed, hR1]
    rw [List.filter_eq_self.mpr (fun a ha => by simpa using (hbfacts a ha).2)]
    rw [if_neg (by simpa [List.isEmpty_iff] using hbne)]
  rw [hmark] at hstep
  exact ⟨_, _, hstep, hbnd, hbne, hbfacts, by simp, by simp [hR2], by simp [hR3]⟩

/-- The rollover round: when the committed ids cover the whole list, the
next shuffle-and-commit round resets to a fresh cycle-1 record, reports
`cycleComplete = true` with the cycle number incremented from 0 to 1, and
returns a non-empty duplicate-free batch drawn from the full list. -/
theorem shuffleCommitStep_rollover (rand : Nat → Nat) (pid : String)
    (ts : List SpotifyTrack) (now : Nat) (played : List String)
    (store : Option ShuffleMemory)
    (hinv : CycleInvStore ts played store)
    (hpid : pid ≠ "") (hts : ts ≠ [])
    (hids : (ts.map (fun t => t.id)).Nodup)
    (hsub : ∀ x ∈ played, x ∈ ts.map (fun t => t.id))
    (hcov : ∀ x ∈ ts.map (fun t => t.id), x ∈ played) :
    ∃ b mem3,
      shuffleCommitStep rand pid ts now store =
        .ok ((b, ⟨0, ts.length, true, 1, roundPct 0 ts.length⟩), some mem3) ∧
      b.Nodup ∧ b ≠ [] ∧ (∀ x ∈ b, x ∈ ts.map (fun t => t.id)) := by
  obtain ⟨hR1, hR2, hR3⟩ := reconciledMemory_inv_facts pid ts now played store hinv hsub
  have hunp : unplayedAfterReconcile pid ts now store = [] := by
    rw [unplayedAfterReconcile, hR1]
    rw [List.filter_eq_nil_iff]
    intro t ht
    simp only [decide_eq_true_eq, not_not]
    exact hcov t.id (List.mem_map.mpr ⟨t, ht, rfl⟩)
  have hroll := getSmartShuffledTracks_rollover rand 0 pid ts now store hpid hts hunp
  rw [hR3] at hroll
  simp only [Nat.zero_add] at hroll
  obtain ⟨hbnd, hbmem, hblen⟩ := selected_ids_facts rand ts
    (min (calculateOptimalSetSize ts.length) ts.length) hids
  have htlen : 1 ≤ ts.length := by
    have := List.length_pos.mpr hts
    omega
  have hset : 1 ≤ calculateOptimalSetSize ts.length :=
    calculateOptimalSetSize_pos ts.length htlen
  have hbne : ((fisherYates rand ts).take
      (min (calculateOptimalSetSize ts.length) ts.length)).map (fun t => t.id) ≠ [] := by
    intro h
    rw [h] at hblen
    simp at hblen
    omega
  have hstep := shuffleCommitStep_ok rand pid ts now store _ _ _ hroll
  have hfp : (createFreshMemory pid ts 1 now).playedTrackIds = [] := rfl
  have hmark : markTracksAsPlayed (some (createFreshMemory pid ts 1 now))
      (((fisherYates rand ts).take
        (min (calculateOptimalSetSize ts.length) ts.length)).map (fun t => t.id)) now =
      ⟨true, some { createFreshMemory pid ts 1 now with
        playedTrackIds := [] ++ ((fisherYates rand ts).take
          (min (calculateOptimalSetSize ts.length) ts.length)).map (fun t => t.id)
        lastUpdated := now }, true⟩ := by
    rw [markTracksAsPlayed, hfp]
    rw [List.filter_eq_self.mpr (fun a _ => by simp)]
    rw [if_neg (by simpa [List.isEmpty_iff] using hbne)]
  rw [hmark] at hstep
  exact ⟨_, _, hstep, hbnd, hbne, hbmem⟩

/-- Unfolding of `runShuffleCommit`: a successful round followed by a
successful run of the remaining rounds. -/
theorem runShuffleCommit_cons (rands : Nat → Nat → Nat) (pid : String)
    (ts : List SpotifyTrack) (now : Nat) (i count : Nat)
    (store store1 store2 : Option ShuffleMemory)
    (out : List String × ShuffleStats) (outs : List (List String × ShuffleStats))
    (h1 : shuffleCommitStep (rands i) pid ts now store = .ok (out, store1))
    (h2 : runShuffleCommit rands pid ts now (i + 1) count store1 = .ok (outs, store2)) :
    runShuffleCommit rands pid ts now i (count + 1) store = .ok (out :: outs, store2) := by
  show (shuffleCommitStep (rands i) pid ts now store).bind _ = _
  rw [h1]
  show (runShuffleCommit rands pid ts now (i + 1) count store1).map _ = _
  rw [h2]
  rfl

/-- Full first cycle: starting under the cycle invariant with `u ≥ 1`
unplayed tracks, some `k ≤ u` shuffle-and-commit rounds (each reporting
`cycleComplete = false` on cycle 0) extend the committed ids to exactly the
live id set with no duplicates, and the round after them is the rollover
round reporting `cycleComplete = true` on cycle 1 with a fresh non-empty
batch. -/
theorem runShuffleCommit_cycle (rands : Nat → Nat → Nat) (pid : String)
    (ts : List SpotifyTrack) (now : Nat)
    (hpid : pid ≠ "") (hts : ts ≠ [])
    (hids : (ts.map (fun t => t.id)).Nodup) :
    ∀ (u : Nat), 1 ≤ u →
    ∀ (i : Nat) (store : Option ShuffleMemory) (played : List String),
      CycleInvStore ts played store →
      played.Nodup →
      (∀ x ∈ played, x ∈ ts.map (fun t => t.id)) →
      (ts.filter (fun t => decide (t.id ∉ played))).length = u →
      ∃ (k : Nat) (outs : List (List String × ShuffleStats))
        (last : List String × ShuffleStats) (store3 : Option ShuffleMemory),
        1 ≤ k ∧ k ≤ u ∧
        runShuffleCommit rands pid ts now i (k + 1) store =
          .ok (outs ++ [last], store3) ∧
        outs.length = k ∧
        (∀ p ∈ outs, p.2.cycleComplete = false ∧ p.2.cycleNumber = 0) ∧
        (played ++ (outs.map Prod.fst).flatten).Nodup ∧
        (∀ x, x ∈ played ++ (outs.map Prod.fst).flatten ↔
          x ∈ ts.map (fun t => t.id)) ∧
        last.2 = ⟨0, ts.length, true, 1, roundPct 0 ts.length⟩ ∧
        last.1 ≠ [] ∧ (∀ x ∈ last.1, x ∈ ts.map (fun t => t.id)) := by
  intro u
  induction u using Nat.strong_induction_on with
  | _ u ih =>
    intro hu i store played hinv hnd hsubp hlen
    have hrem : ts.filter (fun t => decide (t.id ∉ played)) ≠ [] := by
      intro h
      rw [h] at hlen
      simp at hlen
      omega
    obtain ⟨b, mem2, hstep, hbnd, hbne, hbfacts, hpl2, hh2, hc2⟩ :=
      shuffleCommitStep_mid (rands i) pid ts now played store hinv hpid hts hids hsubp hrem
    have hnd2 : (played ++ b).Nodup := by
      rw [List.nodup_append]
      exact ⟨hnd, hbnd, fun a ha hb => (hbfacts a hb).2 ha⟩
    have hsub2 : ∀ x ∈ played ++ b, x ∈ ts.map (fun t => t.id) := by
      intro x hx
      rcases List.mem_append.mp hx with h | h
      · exact hsubp x h
      · exact (hbfacts x h).1
    have hinv2 : CycleInvStore ts (played ++ b) (some mem2) :=
      Or.inr ⟨mem2, rfl, hh2, hpl2, hc2⟩
    have hlen2 := unplayed_length_after_commit ts played b hids hbnd hbfacts
    have hbpos : 1 ≤ b.length := List.length_pos.mpr hbne
    by_cases hdone : (ts.filter (fun t => decide (t.id ∉ played ++ b))).length = 0
    · have hcov : ∀ x ∈ ts.map (fun t => t.id), x ∈ played ++ b := by
        intro x hx
        rcases List.mem_map.mp hx with ⟨t, ht, he⟩
        by_contra hno
        have hmem : t ∈ ts.filter (fun t => decide (t.id ∉ played ++ b)) :=
          List.mem_filter.mpr ⟨ht, by simpa [he] using hno⟩
        rw [List.length_eq_zero.mp hdone] at hmem
        simp at hmem
      obtain ⟨b2, mem3, hstep2, hb2nd, hb2ne, hb2mem⟩ :=
        shuffleCommitStep_rollover (rands (i + 1)) pid ts now (played ++ b) (some mem2)
          hinv2 hpid hts hids hsub2 hcov
      refine ⟨1, [(b, ⟨played.length, ts.length - played.length, false, 0,
          roundPct played.length ts.length⟩)],
        (b2, ⟨0, ts.length, true, 1, roundPct 0 ts.length⟩), some mem3,
        le_refl 1, by omega, ?_, rfl, ?_, ?_, ?_, rfl, hb2ne, hb2mem⟩
      · have h0 : runShuffleCommit rands pid ts now (i + 1 + 1) 0 (some mem3) =
            .ok ([], some mem3) := rfl
        have h1 := runShuffleCommit_cons rands pid ts now (i + 1) 0 (some mem2)
          (some mem3) (some mem3) _ [] hstep2 h0
        exact runShuffleCommit_cons rands pid ts now i 1 store (some mem2)
          (some mem3) _ _ hstep h1
      · intro p hp
        rw [List.mem_singleton] at hp
        subst hp
        exact ⟨rfl, rfl⟩
      · simpa using hnd2
      · intro x
        simp only [List.map_cons, List.map_nil, List.flatten_cons, List.flatten_nil,
          List.append_nil]
        exact ⟨fun h => hsub2 x h, fun h => hcov x h⟩
    · have hlt : (ts.filter (fun t => decide (t.id ∉ played ++ b))).length < u := by
        omega
      have hge : 1 ≤ (ts.filter (fun t => decide (t.id ∉ played ++ b))).length := by
        omega
      obtain ⟨k1, outs1, last1, store3, hk1a, hk1b, hrun1, houts1, hflags1, hnd3,
          hiff3, hlast2, hlastne, hlastmem⟩ :=
        ih _ hlt hge (i + 1) (some mem2) (played ++ b) hinv2 hnd2 hsub2 rfl
      refine ⟨k1 + 1, (b, ⟨played.length, ts.length - played.length, false, 0,
          roundPct played.length ts.length⟩) :: outs1, last1, store3,
        by omega, by omega, ?_, by simp [houts1], ?_, ?_, ?_, hlast2, hlastne, hlastmem⟩
      · exact runShuffleCommit_cons rands pid ts now i (k1 + 1) store (some mem2)
          store3 _ _ hstep hrun1
      · intro p hp
        rcases List.mem_cons.mp hp with h | h
        · subst h
          exact ⟨rfl, rfl⟩
        · exact hflags1 p h
      · simp only [List.map_cons, List.flatten_cons]
        rw [← List.append_assoc]
        exact hnd3
      · intro x
        simp only [List.map_cons, List.flatten_cons]
        rw [← List.append_assoc]
        exact hiff3 x

/-- C1: exactly-once per cycle.  For every fixed track list with pairwise
distinct ids, a non-empty playlist id and empty initial storage, repeatedly
running `getSmartShuffledTracks` and committing each returned batch via
`markTracksAsPlayed` reaches, after some `m ≤ N` rounds, a state in which
the committed batches together contain every track id exactly once (their
concatenation is a duplicate-free permutation of the id list), every one of
those rounds reports `cycleComplete = false` on cycle number 0, and the
next round performs the rollover: it returns a non-empty batch of live ids
with `cycleComplete = true` and `cycleNumber = 1`, incremented by exactly 1
over the previous cycle. -/
theorem exactly_once_per_cycle (rands : Nat → Nat → Nat) (pid : String)
    (ts : List SpotifyTrack) (now : Nat)
    (hpid : pid ≠ "") (hts : ts ≠ [])
    (hids : (ts.map (fun t => t.id)).Nodup) :
    ∃ (m : Nat) (outs : List (List String × ShuffleStats))
      (last : List String × ShuffleStats) (store3 : Option ShuffleMemory),
      1 ≤ m ∧ m ≤ ts.length ∧
      runShuffleCommit rands pid ts now 0 (m + 1) none =
        .ok (outs ++ [last], store3) ∧
      outs.length = m ∧
      ((outs.map Prod.fst).flatten).Perm (ts.map (fun t => t.id)) ∧
      ((outs.map Prod.fst).flatten).Nodup ∧
      (∀ p ∈ outs, p.2.cycleComplete = false ∧ p.2.cycleNumber = 0) ∧
      last.2.cycleComplete = true ∧ last.2.cycleNumber = 1 ∧
      last.1 ≠ [] ∧ (∀ x ∈ last.1, x ∈ ts.map (fun t => t.id)) := by
  have hfilter : ts.filter (fun t => decide (t.id ∉ ([] : List String))) = ts :=
    List.filter_eq_self.mpr (fun a _ => by simp)
  have hpos : 1 ≤ ts.length := by
    have := List.length_pos.mpr hts
    omega
  obtain ⟨k, outs, last, store3, hk1, hk2, hrun, houts, hflags, hnd, hiff,
      hlast2, hlastne, hlastmem⟩ :=
    runShuffleCommit_cycle rands pid ts now hpid hts hids ts.length hpos 0 none []
      (Or.inl ⟨rfl, rfl⟩) List.nodup_nil (by simp) (by rw [hfilter])
  have hndj : ((outs.map Prod.fst).flatten).Nodup := by simpa using hnd
  refine ⟨k, outs, last, store3, hk1, hk2, hrun, houts, ?_, hndj, hflags,
    ?_, ?_, hlastne, hlastmem⟩
  · rw [List.perm_ext_iff_of_nodup hndj hids]
    intro x
    have h := hiff x
    rw [List.nil_append] at h
    exact h
  · rw [hlast2]
  · rw [hlast2]

/-- Witness for C1 at a concrete three-track playlist. -/
theorem exactly_once_per_cycle_witness :
    (("p" : String) ≠ "" ∧
      ([⟨"a", "ua"⟩, ⟨"b", "ub"⟩, ⟨"c", "uc"⟩] : List SpotifyTrack) ≠ [] ∧
      (([⟨"a", "ua"⟩, ⟨"b", "ub"⟩, ⟨"c", "uc"⟩] : List SpotifyTrack).map
        (fun t => t.id)).Nodup) ∧
    (∃ (m : Nat) (outs : List (List String × ShuffleStats))
      (last : List String × ShuffleStats) (store3 : Option ShuffleMemory),
      1 ≤ m ∧ m ≤ ([⟨"a", "ua"⟩, ⟨"b", "ub"⟩, ⟨"c", "uc"⟩] : List SpotifyTrack).length ∧
      runShuffleCommit (fun _ _ => 0) "p"
          [⟨"a", "ua"⟩, ⟨"b", "ub"⟩, ⟨"c", "uc"⟩] 7 0 (m + 1) none =
        .ok (outs ++ [last], store3) ∧
      outs.length = m ∧
      ((outs.map Prod.fst).flatten).Perm
        (([⟨"a", "ua"⟩, ⟨"b", "ub"⟩, ⟨"c", "uc"⟩] : List SpotifyTrack).map
          (fun t => t.id)) ∧
      ((outs.map Prod.fst).flatten).Nodup ∧
      (∀ p ∈ outs, p.2.cycleComplete = false ∧ p.2.cycleNumber = 0) ∧
      last.2.cycleComplete = true ∧ last.2.cycleNumber = 1 ∧
      last.1 ≠ [] ∧
      (∀ x ∈ last.1, x ∈ ([⟨"a", "ua"⟩, ⟨"b", "ub"⟩, ⟨"c", "uc"⟩] :
        List SpotifyTrack).map (fun t => t.id))) :=
  ⟨⟨by decide, by decide, by decide⟩,
    exactly_once_per_cycle (fun _ _ => 0) "p"
      [⟨"a", "ua"⟩, ⟨"b", "ub"⟩, ⟨"c", "uc"⟩] 7 (by decide) (by decide) (by decide)⟩
